import Mathlib

/-!
# Cocoa-chain: the toy ledger and the REST validation glue

A shallow embedding of `dev/blockchain.js` (the in-memory ledger with its
proof-of-work scan and its aggregation queries) and of the pure parts of
`dev/verinetworkNode.js` (seller-id derivation, the validation prefix of
`POST /sale`, the aggregation of `GET /sales-summary`).

Conventions of the embedding:

* In the ledger a JavaScript number is exact: a finite number is a rational,
  next to `NaN` and the two infinities, and the increment of the proof-of-work
  counter stops at `2^53`, where `nonce++` no longer changes a double.
* In `GET /sales-summary` a number is a double that holds a non-negative
  integer: every conversion and operation rounds to the nearest double
  (`roundToDouble`).
* In the ledger a JavaScript value is a primitive value; objects appear only
  as the records the code itself builds (sales, blocks, summary entries). The
  body of a request is a JSON value, objects and arrays included.
* `Date.now()` is an explicit argument `now`.
* A method of the `Blockchain` object takes the object's state `self` and
  returns its result together with the state after the call.
* The two built-in conversions between strings and numbers are parameters
  (`Builtins`): nothing below depends on how they are computed.
* A call that can throw or reject returns a `Completion`.
-/

namespace CocoaChain

/-! ## JavaScript values -/

/-- A JavaScript number in exact arithmetic. -/
inductive JsNum where
  | nan
  | fin (q : ℚ)
  | posInf
  | negInf
  deriving DecidableEq

/-- A primitive JavaScript value. -/
inductive JsVal where
  | undefined
  | null
  | bool (b : Bool)
  | num (n : JsNum)
  | str (s : String)
  deriving DecidableEq

/-- The built-in conversions of ECMAScript that the embedding leaves
uninterpreted: `StringToNumber` and `Number::toString`. -/
structure Builtins where
  stringToNumber : String → JsNum
  numberToString : JsNum → String

namespace JsNum

/-- The number `x + y`. -/
def add : JsNum → JsNum → JsNum
  | nan, _ => nan
  | _, nan => nan
  | fin a, fin b => fin (a + b)
  | fin _, posInf => posInf
  | fin _, negInf => negInf
  | posInf, fin _ => posInf
  | negInf, fin _ => negInf
  | posInf, posInf => posInf
  | negInf, negInf => negInf
  | posInf, negInf => nan
  | negInf, posInf => nan

/-- The sign of an infinity times a finite factor: `NaN` for a zero factor. -/
def infTimes (positive : Bool) (a : ℚ) : JsNum :=
  if a = 0 then nan
  else if decide (0 < a) = positive then posInf else negInf

/-- The number `x * y`. -/
def mul : JsNum → JsNum → JsNum
  | nan, _ => nan
  | _, nan => nan
  | fin a, fin b => fin (a * b)
  | fin a, posInf => infTimes true a
  | fin a, negInf => infTimes false a
  | posInf, fin a => infTimes true a
  | negInf, fin a => infTimes false a
  | posInf, posInf => posInf
  | negInf, negInf => posInf
  | posInf, negInf => negInf
  | negInf, posInf => negInf

/-- The comparison `x <= 0` on numbers: false for `NaN`. -/
def leZero : JsNum → Bool
  | nan => false
  | fin a => decide (a ≤ 0)
  | posInf => false
  | negInf => true

/-- The test `isNaN` on numbers. -/
def isNaN : JsNum → Bool
  | nan => true
  | _ => false

end JsNum

namespace JsVal

/-- The conversion `ToBoolean`: the falsy values are `undefined`, `null`,
`false`, `0`, `NaN` and the empty string. -/
def truthy : JsVal → Bool
  | undefined => false
  | null => false
  | bool b => b
  | num JsNum.nan => false
  | num (JsNum.fin q) => decide (q ≠ 0)
  | num _ => true
  | str s => decide (s ≠ "")

/-- The conversion `ToNumber` on primitive values. -/
def toNumber (js : Builtins) : JsVal → JsNum
  | undefined => JsNum.nan
  | null => JsNum.fin 0
  | bool b => JsNum.fin (if b then 1 else 0)
  | num n => n
  | str s => js.stringToNumber s

/-- The conversion `ToString` on primitive values; it is also `ToPropertyKey`,
the key under which `obj[v]` reads and writes. -/
def toJsString (js : Builtins) : JsVal → String
  | undefined => "undefined"
  | null => "null"
  | bool b => if b then "true" else "false"
  | num n => js.numberToString n
  | str s => s

/-- Strict equality `a === b`: `NaN` differs from itself. -/
def strictEq : JsVal → JsVal → Bool
  | num JsNum.nan, _ => false
  | _, num JsNum.nan => false
  | a, b => decide (a = b)

/-- The operator `a + b`: concatenation as soon as one side is a string,
numeric addition otherwise. -/
def add (js : Builtins) : JsVal → JsVal → JsVal
  | str s, b => str (s ++ toJsString js b)
  | a, str t => str (toJsString js a ++ t)
  | a, b => num (JsNum.add (toNumber js a) (toNumber js b))

/-- The operator `a * b`. -/
def mul (js : Builtins) (a b : JsVal) : JsVal :=
  num (JsNum.mul (toNumber js a) (toNumber js b))

/-- The comparison `a <= 0`: both sides go through `ToNumber`, and the
result is false when the left side converts to `NaN`. -/
def leZero (js : Builtins) (a : JsVal) : Bool :=
  JsNum.leZero (toNumber js a)

/-- The global function `isNaN(a)`. -/
def isNaN (js : Builtins) (a : JsVal) : Bool :=
  JsNum.isNaN (toNumber js a)

end JsVal

/-! ## dev/blockchain.js: proof of work -/

/-- The largest value the counter reaches: `2^53 + 1` is not a double, so
`nonce++` leaves `2^53` unchanged. -/
def maxNonce : Nat := 2 ^ 53

/-- The statement `nonce++` on an integer-valued double. -/
def increment (nonce : Nat) : Nat :=
  if nonce < maxNonce then nonce + 1 else nonce

/-- The test `hash.substring(0, 2) !== '00'` of the loop, negated. -/
def startsWith00 (hash : String) : Bool :=
  hash.toList.take 2 == ['0', '0']

/-! ## Objects used as maps -/

/-- The property names every object literal inherits from
`Object.prototype`. Reading `obj[k]` for one of them on an object without an
own property `k` gives a function (for `__proto__` the prototype object), a
truthy value that is not an entry of `obj`. -/
def objectPrototypeKeys : List String :=
  ["constructor", "__defineGetter__", "__defineSetter__", "hasOwnProperty",
   "__lookupGetter__", "__lookupSetter__", "isPrototypeOf",
   "propertyIsEnumerable", "toString", "valueOf", "__proto__",
   "toLocaleString"]

/-- An object literal used as a map: its own properties in insertion order.
The values are objects, hence truthy. -/
abbrev JsObject (β : Type) := List (String × β)

namespace JsObject

/-- The truthiness of `obj[key]`: an own property, or else a property
inherited from `Object.prototype`. -/
def truthyAt {β : Type} (obj : JsObject β) (key : String) : Bool :=
  (obj.lookup key).isSome || decide (key ∈ objectPrototypeKeys)

/-- The assignment `obj[key] = value` for a key that is not yet an own
property. -/
def define {β : Type} (obj : JsObject β) (key : String) (value : β) :
    JsObject β :=
  obj ++ [(key, value)]

/-- The in-place update of the object `obj[key]` refers to. When `key` is
not an own property the update lands on the inherited object and `obj` keeps
its entries. -/
def update {β : Type} (obj : JsObject β) (key : String) (f : β → β) :
    JsObject β :=
  obj.map fun entry => if entry.1 = key then (entry.1, f entry.2) else entry

end JsObject

/-! ## dev/blockchain.js -/

/-- A sale object `{ sellerId, buyerName, quantityKg, price, timestamp }`. -/
structure Sale where
  sellerId : JsVal
  buyerName : JsVal
  quantityKg : JsVal
  price : JsVal
  timestamp : Nat
  deriving DecidableEq

/-- A block `{ index, timestamp, sales, nonce, hash, previousBlockHash }`. -/
structure Block where
  index : Nat
  timestamp : Nat
  sales : List Sale
  nonce : JsVal
  hash : JsVal
  previousBlockHash : JsVal
  deriving DecidableEq

/-- The state of a `Blockchain` object. -/
structure Blockchain where
  chain : List Block
  pendingSales : List Sale
  currentNodeUrl : JsVal
  networkNodes : List JsVal
  deriving DecidableEq

/-- How a call ends: with a value, or with a thrown error. -/
inductive Completion (α : Type) where
  | returned (value : α)
  | thrown (error : String)
  deriving DecidableEq

/-- One entry of `summaryPerSeller`: `{ sales, quantity, revenue }`. -/
structure SellerSummary where
  sales : Nat
  quantity : JsVal
  revenue : JsVal
  deriving DecidableEq

/-- The object `salesSummary()` returns, without `averagePricePerKg` (a
quotient formatted by `toFixed`). -/
structure Summary where
  summaryPerSeller : JsObject SellerSummary
  totalCocoa : JsVal
  totalRevenue : JsVal
  deriving DecidableEq

namespace Blockchain

/-- The method `createNewBlock(nonce, previousBlockHash, hash)`. -/
def createNewBlock (self : Blockchain) (nonce previousBlockHash hash : JsVal)
    (now : Nat) : Block × Blockchain :=
  let newBlock : Block :=
    { index := self.chain.length
      timestamp := now
      sales := self.pendingSales
      nonce := nonce
      hash := hash
      previousBlockHash := previousBlockHash }
  (newBlock, { self with pendingSales := [], chain := self.chain ++ [newBlock] })

/-- The constructor `new Blockchain(currentNodeUrl)`: empty fields, then the
genesis block `createNewBlock(100, '0', '0')`. -/
def new (currentNodeUrl : JsVal) (now : Nat) : Blockchain :=
  let self : Blockchain :=
    { chain := []
      pendingSales := []
      currentNodeUrl :=
        if currentNodeUrl.truthy then currentNodeUrl
        else JsVal.str "http://localhost:3001"
      networkNodes := [] }
  (createNewBlock self (JsVal.num (JsNum.fin 100)) (JsVal.str "0")
    (JsVal.str "0") now).2

/-- The method `getLastBlock()`: `this.chain[this.chain.length - 1]`, `none`
standing for `undefined`. -/
def getLastBlock (self : Blockchain) : Option Block × Blockchain :=
  (self.chain[self.chain.length - 1]?, self)

/-- The method `createSale(sellerId, buyerName, quantityKg, price)`, `none`
standing for `null`. -/
def createSale (js : Builtins) (self : Blockchain)
    (sellerId buyerName quantityKg price : JsVal) (now : Nat) :
    Option Sale × Blockchain :=
  if !sellerId.truthy || !buyerName.truthy || quantityKg.leZero js
      || price.leZero js then
    (none, self)
  else
    (some
      { sellerId := sellerId
        buyerName := buyerName
        quantityKg := quantityKg
        price := price
        timestamp := now }, self)

/-- The method `addSaleToPending(sale)`, the argument `none` standing for a
`null` or absent sale and the result `none` for `null`. Reading `.index` of an
absent last block throws, after the push. -/
def addSaleToPending (self : Blockchain) (sale : Option Sale) :
    Completion (Option Nat) × Blockchain :=
  match sale with
  | none => (Completion.returned none, self)
  | some sale =>
    let self := { self with pendingSales := self.pendingSales ++ [sale] }
    match (getLastBlock self).1 with
    | none =>
      (Completion.thrown "TypeError: Cannot read properties of undefined", self)
    | some lastBlock => (Completion.returned (some (lastBlock.index + 1)), self)

/-- The method `hashBlock(prevHash, blockData, nonce)`:
`sha256(prevHash + nonce.toString() + JSON.stringify(blockData))`.
`sha256` is the imported library function; `prevHash` and `blockData` are
given by the strings the concatenation makes of them. -/
def hashBlock (self : Blockchain) (sha256 : String → String)
    (prevHash blockData : String) (nonce : Nat) : String × Blockchain :=
  (sha256 (prevHash ++ toString nonce ++ blockData), self)

/-- The `while` loop of `proofOfWork` from the counter value `nonce` on, run
for at most `fuel` evaluations of its test; `none` when the fuel runs out. -/
def proofOfWorkLoop (sha256 : String → String) (prevHash blockData : String) :
    Nat → Nat → Blockchain → Option (Nat × Blockchain)
  | 0, _, _ => none
  | fuel + 1, nonce, self =>
    let hashed := hashBlock self sha256 prevHash blockData nonce
    if startsWith00 hashed.1 then some (nonce, hashed.2)
    else proofOfWorkLoop sha256 prevHash blockData fuel (increment nonce) hashed.2

/-- The method `proofOfWork(prevHash, blockData)` with a bound on the number
of hashes tried. -/
def proofOfWork (self : Blockchain) (sha256 : String → String)
    (prevHash blockData : String) (fuel : Nat) : Option (Nat × Blockchain) :=
  proofOfWorkLoop sha256 prevHash blockData fuel 0 self

/-- The body of the inner `forEach` of `salesSummary`, on the three
accumulators. -/
def salesSummaryStep (js : Builtins) (acc : Summary) (sale : Sale) : Summary :=
  let key := sale.sellerId.toJsString js
  let summary :=
    if !acc.summaryPerSeller.truthyAt key then
      acc.summaryPerSeller.define key
        { sales := 0, quantity := JsVal.num (JsNum.fin 0)
          revenue := JsVal.num (JsNum.fin 0) }
    else acc.summaryPerSeller
  let summary := summary.update key fun entry =>
    { sales := entry.sales + 1
      quantity := entry.quantity.add js sale.quantityKg
      revenue := entry.revenue.add js (sale.price.mul js sale.quantityKg) }
  { summaryPerSeller := summary
    totalCocoa := acc.totalCocoa.add js sale.quantityKg
    totalRevenue := acc.totalRevenue.add js (sale.price.mul js sale.quantityKg) }

/-- The method `salesSummary()`. -/
def salesSummary (js : Builtins) (self : Blockchain) : Summary × Blockchain :=
  (self.chain.foldl
    (fun acc block => block.sales.foldl (salesSummaryStep js) acc)
    { summaryPerSeller := []
      totalCocoa := JsVal.num (JsNum.fin 0)
      totalRevenue := JsVal.num (JsNum.fin 0) }, self)

/-- The method `getAllSales()`. -/
def getAllSales (self : Blockchain) : List Sale × Blockchain :=
  (self.chain.foldl (fun allSales block => allSales ++ block.sales) [], self)

/-- The method `getSellerSales(sellerId)`. -/
def getSellerSales (self : Blockchain) (sellerId : JsVal) :
    List Sale × Blockchain :=
  (self.chain.foldl
    (fun sellerSales block =>
      block.sales.foldl
        (fun sellerSales sale =>
          if sale.sellerId.strictEq sellerId then sellerSales ++ [sale]
          else sellerSales)
        sellerSales)
    [], self)

end Blockchain

/-! ## dev/verinetworkNode.js: generateSellerId

A string is taken as the list of its characters, which for the characters of
the Basic Multilingual Plane (all an address has) are its UTF-16 code units. -/

/-- The call `s.slice(start, stop)` for `0 <= start` and `0 <= stop`. -/
def slice (s : List Char) (start stop : Nat) : List Char :=
  (s.take stop).drop start

/-- The white space and line terminators `parseInt` skips. -/
def isWhiteSpace (c : Char) : Bool :=
  c.toNat ∈ [0x9, 0xA, 0xB, 0xC, 0xD, 0x20, 0xA0, 0x1680, 0x2000, 0x2001,
    0x2002, 0x2003, 0x2004, 0x2005, 0x2006, 0x2007, 0x2008, 0x2009, 0x200A,
    0x2028, 0x2029, 0x202F, 0x205F, 0x3000, 0xFEFF]

/-- The value of a hexadecimal digit, `none` for any other character. -/
def hexDigitValue (c : Char) : Option Nat :=
  if '0' ≤ c ∧ c ≤ '9' then some (c.toNat - '0'.toNat)
  else if 'a' ≤ c ∧ c ≤ 'f' then some (c.toNat - 'a'.toNat + 10)
  else if 'A' ≤ c ∧ c ≤ 'F' then some (c.toNat - 'A'.toNat + 10)
  else none

/-- The values of the longest run of hexadecimal digits a string starts
with. -/
def leadingHexDigits : List Char → List Nat
  | [] => []
  | c :: rest =>
    match hexDigitValue c with
    | some d => d :: leadingHexDigits rest
    | none => []

/-- The call `parseInt(s, 16)`, `none` standing for `NaN`: skip white space,
take a sign, skip `0x` or `0X`, read hexadecimal digits as far as they go. -/
def parseInt16 (s : List Char) : Option Int :=
  let s := s.dropWhile isWhiteSpace
  let signed : Int × List Char :=
    match s with
    | '-' :: rest => (-1, rest)
    | '+' :: rest => (1, rest)
    | _ => (1, s)
  let body :=
    match signed.2 with
    | '0' :: 'x' :: rest => rest
    | '0' :: 'X' :: rest => rest
    | other => other
  match leadingHexDigits body with
  | [] => none
  | digits => some (signed.1 * (digits.foldl (fun acc d => 16 * acc + d) 0 : Nat))

/-- The constant `hexChars`. -/
def hexChars : List Char := "0123456789abcdef".toList

/-- What `result += hexChars[byteVal % 16]` appends: the text `undefined`
when the index is `NaN` or negative. -/
def hexCharsAt (byteVal : Option Int) : List Char :=
  match byteVal with
  | none => "undefined".toList
  | some v =>
    if v.tmod 16 < 0 then "undefined".toList
    else
      match hexChars[(v.tmod 16).toNat]? with
      | some c => [c]
      | none => "undefined".toList

/-- The function `generateSellerId(walletAddress)`. -/
def generateSellerId (walletAddress : String) : String :=
  let addr := walletAddress.toList.drop 2
  String.mk <|
    (List.range 7).foldl
      (fun result i =>
        let byteStr := slice addr (i * 2) (i * 2 + 2)
        let byteVal := parseInt16 byteStr
        result ++ hexCharsAt byteVal)
      "SEL".toList

/-! ## dev/verinetworkNode.js: POST /sale

The body of a request is a JSON value as `JSON.parse` builds it: its objects
and arrays have the prototypes `Object.prototype` and `Array.prototype`, and
no property of theirs is callable. -/

/-- A value of a parsed JSON body. -/
inductive Json where
  | null
  | bool (b : Bool)
  | num (n : JsNum)
  | str (s : String)
  | arr (items : List Json)
  | obj (fields : List (String × Json))

/-- The result of a call mapped through a function. -/
def Completion.map {α β : Type} (f : α → β) : Completion α → Completion β
  | Completion.returned value => Completion.returned (f value)
  | Completion.thrown error => Completion.thrown error

namespace Json

/-- The conversion `ToBoolean`: objects and arrays are truthy. -/
def truthy : Json → Bool
  | null => false
  | bool b => b
  | num JsNum.nan => false
  | num (JsNum.fin q) => decide (q ≠ 0)
  | num _ => true
  | str s => decide (s ≠ "")
  | arr _ => true
  | obj _ => true

mutual

/-- The conversion `ToString`. An array is joined with commas. An object
gives `[object Object]` through the inherited `toString`, unless it has an
own property `toString`: that one is not callable, `valueOf` gives back the
object, and the conversion throws a `TypeError`. -/
def toJsString (js : Builtins) : Json → Completion String
  | null => Completion.returned "null"
  | bool b => Completion.returned (if b then "true" else "false")
  | num n => Completion.returned (js.numberToString n)
  | str s => Completion.returned s
  | arr items => join js items
  | obj fields =>
    if fields.any fun field => field.1 == "toString" then
      Completion.thrown "Cannot convert object to primitive value"
    else Completion.returned "[object Object]"
termination_by structural value => value

/-- The call `items.join(",")` that `Array.prototype.toString` makes: a
`null` element gives the empty string, any other its `ToString`. -/
def join (js : Builtins) : List Json → Completion String
  | [] => Completion.returned ""
  | item :: rest =>
    match (match item with
      | null => Completion.returned ""
      | other => toJsString js other) with
    | Completion.thrown error => Completion.thrown error
    | Completion.returned first =>
      match rest with
      | [] => Completion.returned first
      | _ :: _ =>
        match join js rest with
        | Completion.thrown error => Completion.thrown error
        | Completion.returned others =>
          Completion.returned (first ++ "," ++ others)
termination_by structural items => items

end

/-- The conversion `ToNumber`: an object or an array is converted to a
string first, which can throw. -/
def toNumber (js : Builtins) : Json → Completion JsNum
  | null => Completion.returned (JsNum.fin 0)
  | bool b => Completion.returned (JsNum.fin (if b then 1 else 0))
  | num n => Completion.returned n
  | str s => Completion.returned (js.stringToNumber s)
  | arr items => (toJsString js (arr items)).map js.stringToNumber
  | obj fields => (toJsString js (obj fields)).map js.stringToNumber

/-- The global function `isNaN(value)`. -/
def isNaN (js : Builtins) (value : Json) : Completion Bool :=
  (value.toNumber js).map JsNum.isNaN

/-- The comparison `value <= 0`. -/
def leZero (js : Builtins) (value : Json) : Completion Bool :=
  (value.toNumber js).map JsNum.leZero

end Json

/-- The fields the handler reads from `req.body`; `none` is a missing field,
which reads as `undefined`. -/
structure SaleBody where
  sellerId : Option Json
  buyerName : Option Json
  quantityKg : Option Json
  price : Option Json

/-- A call made to the external contract. -/
inductive ContractCall where
  | isSellerRegistered (sellerId : Json)
  | recordSaleMultiple (sellerId buyerName : Json) (quantityKg price : Int)

/-- The external contract and the library conversion as `POST /sale` sees
them: each call returns or rejects. -/
structure WriteContract where
  isSellerRegistered : Json → Completion Bool
  toBigInt : Json → Completion Int
  recordSaleMultiple : Json → Json → Int → Int → Completion String

/-- What a handler sends: the HTTP status, the message of the body, and the
calls to the external contract made on the way. -/
structure Response where
  status : Nat
  message : String
  calls : List ContractCall

/-- The handler of `POST /sale` after the four fields are read and found
truthy: the two numeric guards, the registration check, the recording. A
thrown error is caught and answered with 500. -/
def postSaleChecked (js : Builtins) (contract : WriteContract)
    (sellerId buyerName quantityKg price : Json) : Response :=
  match quantityKg.isNaN js with
  | Completion.thrown error => ⟨500, error, []⟩
  | Completion.returned true => ⟨400, "quantityKg must be a positive number", []⟩
  | Completion.returned false =>
  match quantityKg.leZero js with
  | Completion.thrown error => ⟨500, error, []⟩
  | Completion.returned true => ⟨400, "quantityKg must be a positive number", []⟩
  | Completion.returned false =>
  match price.isNaN js with
  | Completion.thrown error => ⟨500, error, []⟩
  | Completion.returned true => ⟨400, "price must be a positive number", []⟩
  | Completion.returned false =>
  match price.leZero js with
  | Completion.thrown error => ⟨500, error, []⟩
  | Completion.returned true => ⟨400, "price must be a positive number", []⟩
  | Completion.returned false =>
  let registered := ContractCall.isSellerRegistered sellerId
  match contract.isSellerRegistered sellerId with
  | Completion.thrown error => ⟨500, error, [registered]⟩
  | Completion.returned false =>
    match sellerId.toJsString js with
    | Completion.thrown error => ⟨500, error, [registered]⟩
    | Completion.returned name =>
      ⟨400, "Seller " ++ name ++ " is not registered. Please register first.",
        [registered]⟩
  | Completion.returned true =>
  match contract.toBigInt quantityKg with
  | Completion.thrown error => ⟨500, error, [registered]⟩
  | Completion.returned quantity =>
  match contract.toBigInt price with
  | Completion.thrown error => ⟨500, error, [registered]⟩
  | Completion.returned amount =>
  let record := ContractCall.recordSaleMultiple sellerId buyerName quantity amount
  match contract.recordSaleMultiple sellerId buyerName quantity amount with
  | Completion.thrown error => ⟨500, error, [registered, record]⟩
  | Completion.returned _ =>
    ⟨200, "Sale recorded successfully", [registered, record]⟩

/-- The handler of `POST /sale`; `contractWrite` is `none` while the
contract is not initialised. -/
def postSale (js : Builtins) (contractWrite : Option WriteContract)
    (body : SaleBody) : Response :=
  match contractWrite with
  | none => ⟨500, "Contract not initialized", []⟩
  | some contract =>
    match body.sellerId, body.buyerName, body.quantityKg, body.price with
    | some sellerId, some buyerName, some quantityKg, some price =>
      if !sellerId.truthy || !buyerName.truthy || !quantityKg.truthy
          || !price.truthy then
        ⟨400, "Missing required fields", []⟩
      else postSaleChecked js contract sellerId buyerName quantityKg price
    | _, _, _, _ => ⟨400, "Missing required fields", []⟩

/-! ## dev/verinetworkNode.js: GET /sales-summary

The handler turns the unsigned integers of the contract into doubles with
`Number(...)` and adds and multiplies doubles. Every value it reaches is a
non-negative integer, `Infinity` or `NaN`. -/

/-- A double that is a non-negative integer, `Infinity` or `NaN`. -/
inductive Double where
  | nan
  | fin (n : Nat)
  | inf
  deriving DecidableEq

/-- How often `n` is to be halved to fall below `2^53`, counted in at most
`fuel` steps. -/
def halvings : Nat → Nat → Nat
  | 0, _ => 0
  | fuel + 1, n => if n < 2 ^ 53 then 0 else halvings fuel (n / 2) + 1

/-- The bound `2^1024` from which a rounded value is `Infinity`. -/
def doubleOverflow : Nat := (2 ^ 256) ^ 4

/-- The double nearest to the integer `n`, ties going to the even
significand, and `Infinity` from `2^1024` on: the value of `Number(n)` for a
BigInt `n`, and of the exact result `n` of an operation on doubles. -/
def roundToDouble (n : Nat) : Double :=
  if n ≤ 2 ^ 53 then Double.fin n
  else
    let e := halvings n n
    let significand := n / 2 ^ e
    let rest := n % 2 ^ e
    let rounded :=
      if 2 ^ (e - 1) < rest ∨ (rest = 2 ^ (e - 1) ∧ significand % 2 = 1) then
        (significand + 1) * 2 ^ e
      else significand * 2 ^ e
    if rounded < doubleOverflow then Double.fin rounded else Double.inf

namespace Double

/-- The operator `x + y` on doubles. -/
def add : Double → Double → Double
  | nan, _ => nan
  | _, nan => nan
  | inf, _ => inf
  | _, inf => inf
  | fin a, fin b => roundToDouble (a + b)

/-- The operator `x * y` on doubles. -/
def mul : Double → Double → Double
  | nan, _ => nan
  | _, nan => nan
  | inf, fin b => if b = 0 then nan else inf
  | fin a, inf => if a = 0 then nan else inf
  | inf, inf => inf
  | fin a, fin b => roundToDouble (a * b)

/-- Whether `x - y` is positive: false when the difference is `NaN`. -/
def subPositive : Double → Double → Bool
  | fin a, fin b => decide (b < a)
  | inf, fin _ => true
  | _, _ => false

end Double

/-- A sale as the external contract returns it; `quantityKg` and `price` are
unsigned integers there. -/
structure ContractSale where
  sellerId : String
  buyerName : String
  quantityKg : Nat
  price : Nat
  deriving DecidableEq

/-- One value of `sellerStats`: `{ sales, quantity, revenue }`. -/
structure SellerStats where
  sales : Double
  quantity : Double
  revenue : Double
  deriving DecidableEq

/-- One element of `topSellers`: `{ sellerId, sales, quantity, revenue }`. -/
structure TopSeller where
  sellerId : String
  sales : Double
  quantity : Double
  revenue : Double
  deriving DecidableEq

/-- The three accumulators of the loop of `GET /sales-summary`. -/
structure SummaryAcc where
  totalCocoa : Double
  totalRevenue : Double
  sellerStats : JsObject SellerStats
  deriving DecidableEq

/-- The read-only contract as `GET /sales-summary` sees it: each call
returns or rejects. -/
structure ReadContract where
  getSalesCount : Completion Nat
  getSellersCount : Completion Nat
  getSale : Nat → Completion ContractSale

/-- The object a successful `GET /sales-summary` hands to `res.json`, without
`averagePricePerKg` (a quotient formatted by `toFixed`). In the text sent,
`Infinity` and `NaN` are written as `null`. -/
structure SalesSummaryBody where
  totalSales : Double
  totalSellers : Double
  totalCocoaSold : Double
  totalRevenue : Double
  topSellers : List TopSeller
  deriving DecidableEq

/-- The response of `GET /sales-summary`. -/
inductive SalesSummaryResponse where
  | ok (body : SalesSummaryBody)
  | error (status : Nat) (message : String)
  deriving DecidableEq

/-- The body of the `for` loop, after `getSale(i)` has returned `sale`. -/
def sellerStatsStep (acc : SummaryAcc) (sale : ContractSale) : SummaryAcc :=
  let quantity := roundToDouble sale.quantityKg
  let revenue := (roundToDouble sale.price).mul quantity
  let sellerStats :=
    if !acc.sellerStats.truthyAt sale.sellerId then
      acc.sellerStats.define sale.sellerId
        { sales := Double.fin 0, quantity := Double.fin 0, revenue := Double.fin 0 }
    else acc.sellerStats
  let sellerStats := sellerStats.update sale.sellerId fun stats =>
    { sales := stats.sales.add (Double.fin 1)
      quantity := stats.quantity.add quantity
      revenue := stats.revenue.add revenue }
  { totalCocoa := acc.totalCocoa.add quantity
    totalRevenue := acc.totalRevenue.add revenue
    sellerStats := sellerStats }

/-- The loop `for (let i = 0; i < salesCount; i++)` from the counter value
`i` on, run for at most `fuel` evaluations of its test; `none` when the fuel
runs out. A rejected `getSale` ends it, and `i++` is the increment of a
double. -/
def sellerStatsLoop (getSale : Nat → Completion ContractSale) (salesCount : Nat) :
    Nat → Nat → SummaryAcc → Option (Completion SummaryAcc)
  | 0, _, _ => none
  | fuel + 1, i, acc =>
    if i < salesCount then
      match getSale i with
      | Completion.thrown error => some (Completion.thrown error)
      | Completion.returned sale =>
        sellerStatsLoop getSale salesCount fuel (increment i)
          (sellerStatsStep acc sale)
    else some (Completion.returned acc)

/-- The number a property key stands for when it is an array index: the
canonical decimal spelling of a number below `2^32 - 1`. -/
def arrayIndex (key : String) : Option Nat :=
  let digits := key.toList
  if digits ≠ [] ∧ digits.all Char.isDigit
      ∧ (digits.head? ≠ some '0' ∨ digits.length = 1) then
    let n := digits.foldl (fun acc c => 10 * acc + (c.toNat - '0'.toNat)) 0
    if n < 2 ^ 32 - 1 then some n else none
  else none

/-- The call `Object.entries(obj)`: the array-index keys in ascending numeric
order, then the other keys in insertion order. -/
def objectEntries {β : Type} (obj : JsObject β) : List (String × β) :=
  let indexed := obj.filterMap fun entry =>
    (arrayIndex entry.1).map fun n => (n, entry)
  let others := obj.filter fun entry => (arrayIndex entry.1).isNone
  (indexed.insertionSort fun a b => a.1 ≤ b.1).map (fun e => e.2) ++ others

/-- The expression that builds `topSellers`: the stable sort by the
comparator `b[1].revenue - a[1].revenue`, which moves `b` before `a` when it
is positive, then the first five, each entry flattened. (With a `NaN` revenue
the comparator is not an order, and the order the engine then gives is its
own.) -/
def topSellers (sellerStats : JsObject SellerStats) : List TopSeller :=
  (((objectEntries sellerStats).insertionSort
      fun a b => !b.2.revenue.subPositive a.2.revenue).take 5).map
    fun entry =>
      { sellerId := entry.1
        sales := entry.2.sales
        quantity := entry.2.quantity
        revenue := entry.2.revenue }

/-- The handler of `GET /sales-summary` with a bound on the number of loop
tests; `contractRead` is `none` while the contract is not initialised. -/
def getSalesSummary (fuel : Nat) (contractRead : Option ReadContract) :
    Option SalesSummaryResponse :=
  match contractRead with
  | none => some (SalesSummaryResponse.error 500 "Contract not initialized")
  | some contract =>
    match contract.getSalesCount with
    | Completion.thrown error => some (SalesSummaryResponse.error 500 error)
    | Completion.returned salesCount =>
      match contract.getSellersCount with
      | Completion.thrown error => some (SalesSummaryResponse.error 500 error)
      | Completion.returned sellersCount =>
        match sellerStatsLoop contract.getSale salesCount fuel 0
            { totalCocoa := Double.fin 0, totalRevenue := Double.fin 0
              sellerStats := [] } with
        | none => none
        | some (Completion.thrown error) =>
          some (SalesSummaryResponse.error 500 error)
        | some (Completion.returned acc) =>
          some (SalesSummaryResponse.ok
            { totalSales := roundToDouble salesCount
              totalSellers := roundToDouble sellersCount
              totalCocoaSold := acc.totalCocoa
              totalRevenue := acc.totalRevenue
              topSellers := topSellers acc.sellerStats })

/-! ## Reachable ledger states -/

/-- The ledger states a program reaches from the constructor by calls of
`createNewBlock` and `addSaleToPending`. -/
inductive Reachable : Blockchain → Prop where
  | construct (currentNodeUrl : JsVal) (now : Nat) :
    Reachable (Blockchain.new currentNodeUrl now)
  | createNewBlock {self : Blockchain} (nonce previousBlockHash hash : JsVal)
      (now : Nat) :
    Reachable self →
    Reachable (self.createNewBlock nonce previousBlockHash hash now).2
  | addSaleToPending {self : Blockchain} (sale : Option Sale) :
    Reachable self → Reachable (self.addSaleToPending sale).2

/-- The invariant of the reachable states: the chain is not empty and the
block at position `i` has index `i`. -/
def Blockchain.Indexed (self : Blockchain) : Prop :=
  self.chain ≠ []
    ∧ ∀ (i : Nat) (block : Block), self.chain[i]? = some block → block.index = i

/-! ## Notions the statements use -/

/-- The sum of `quantity` over the entries of `summaryPerSeller`, added up
from 0 with the operator `+`. -/
def sumQuantity (js : Builtins) (entries : JsObject SellerSummary) : JsVal :=
  entries.foldl (fun total entry => total.add js entry.2.quantity)
    (JsVal.num (JsNum.fin 0))

/-- The sum of `revenue` over the entries of `summaryPerSeller`. -/
def sumRevenue (js : Builtins) (entries : JsObject SellerSummary) : JsVal :=
  entries.foldl (fun total entry => total.add js entry.2.revenue)
    (JsVal.num (JsNum.fin 0))

/-- The sum of the `sales` counts over the entries of `summaryPerSeller`. -/
def sumSales (entries : JsObject SellerSummary) : Nat :=
  (entries.map fun entry => entry.2.sales).sum

/-- The rational a value stands for when it is a finite number, 0 for the
other values. -/
def JsVal.toRat : JsVal → ℚ
  | JsVal.num (JsNum.fin q) => q
  | _ => 0

/-- A sale whose `quantityKg` and `price` are finite numbers. -/
def Sale.Numeric (sale : Sale) : Prop :=
  ∃ q p : ℚ, sale.quantityKg = JsVal.num (JsNum.fin q)
    ∧ sale.price = JsVal.num (JsNum.fin p)

/-- The invariant of the loop of `salesSummary` on numeric sales whose keys
`Object.prototype` does not have: distinct keys, numeric entries and totals,
and the totals are the sums over the entries. -/
def Blockchain.Tallied (acc : Summary) (count : Nat) : Prop :=
  (acc.summaryPerSeller.map Prod.fst).Nodup
    ∧ (∀ entry ∈ acc.summaryPerSeller,
        entry.2.quantity = JsVal.num (JsNum.fin entry.2.quantity.toRat)
          ∧ entry.2.revenue = JsVal.num (JsNum.fin entry.2.revenue.toRat))
    ∧ acc.totalCocoa = JsVal.num (JsNum.fin
        (acc.summaryPerSeller.map fun entry => entry.2.quantity.toRat).sum)
    ∧ acc.totalRevenue = JsVal.num (JsNum.fin
        (acc.summaryPerSeller.map fun entry => entry.2.revenue.toRat).sum)
    ∧ (acc.summaryPerSeller.map fun entry => entry.2.sales).sum = count

/-- The hexadecimal digits, in both cases. -/
def hexDigitChars : List Char := "0123456789abcdefABCDEF".toList

/-- The value of a hexadecimal digit, read off its place in
`hexDigitChars`. -/
def digitValue (c : Char) : Nat :=
  if hexDigitChars.indexOf c < 16 then hexDigitChars.indexOf c
  else hexDigitChars.indexOf c - 6

/-- The `i`-th byte of the address whose digits after `0x` are `digits`. -/
def addressByte (digits : List Char) (i : Nat) : Nat :=
  16 * digitValue (digits.getD (2 * i) '0') + digitValue (digits.getD (2 * i + 1) '0')

/-- Whether a value of a body is a number in the plain sense: of type number,
and not `NaN`. -/
def Json.isNumber : Json → Bool
  | Json.num JsNum.nan => false
  | Json.num _ => true
  | _ => false

/-- The integer a double holds, 0 for `Infinity` and `NaN`. -/
def Double.toNat : Double → Nat
  | Double.fin n => n
  | _ => 0

/-- A value of `sellerStats` whose `quantity` and `revenue` are integers. -/
def SellerStats.Finite (stats : SellerStats) : Prop :=
  stats.quantity = Double.fin stats.quantity.toNat
    ∧ stats.revenue = Double.fin stats.revenue.toNat

/-- The invariant of the loop of `GET /sales-summary` while its arithmetic is
exact: distinct keys, integer entries, and the two totals are the integers
`cocoa` and `revenue`, which are the sums over the entries. -/
def SummaryAcc.Exact (acc : SummaryAcc) (cocoa revenue : Nat) : Prop :=
  (acc.sellerStats.map Prod.fst).Nodup
    ∧ (∀ entry ∈ acc.sellerStats, entry.2.Finite)
    ∧ acc.totalCocoa = Double.fin cocoa
    ∧ acc.totalRevenue = Double.fin revenue
    ∧ (acc.sellerStats.map fun entry => entry.2.quantity.toNat).sum = cocoa
    ∧ (acc.sellerStats.map fun entry => entry.2.revenue.toNat).sum = revenue

/-! ## Sample inputs -/

/-- A stand-in for `sha256` that gives the target to one input only. -/
def sampleHash (text : String) : String :=
  if text = "ab3{}" then "00c1" else "f00d"

/-- A sale as `createSale("SEL1a2b3c4", "Bob", 5, 2)` builds it at time 7. -/
def sampleSale : Sale :=
  { sellerId := JsVal.str "SEL1a2b3c4"
    buyerName := JsVal.str "Bob"
    quantityKg := JsVal.num (JsNum.fin 5)
    price := JsVal.num (JsNum.fin 2)
    timestamp := 7 }

/-- A choice of the two conversions for the closed examples. None of the
examples converts between a string and a number, so the choice is immaterial
there. -/
def sampleBuiltins : Builtins :=
  { stringToNumber := fun _ => JsNum.nan
    numberToString := fun _ => "" }

/-- The ledger after `new Blockchain()`,
`addSaleToPending(createSale(sellerId, "Bob", 5, 2))` and
`createNewBlock(7, "0", "00ab")`. -/
def ledgerWithSaleOf (js : Builtins) (sellerId : JsVal) : Blockchain :=
  let fresh := Blockchain.new JsVal.undefined 0
  let sale := fresh.createSale js sellerId (JsVal.str "Bob")
    (JsVal.num (JsNum.fin 5)) (JsVal.num (JsNum.fin 2)) 1
  let pending := sale.2.addSaleToPending sale.1
  (pending.2.createNewBlock (JsVal.num (JsNum.fin 7)) (JsVal.str "0")
    (JsVal.str "00ab") 2).2

/-- The address the server falls back to, without its `0x`. -/
def sampleAddressDigits : List Char :=
  "e7f1725E7734CE288F8367e1Bb143E90bb3F0512".toList

/-- An initialised contract on which every seller is registered and every
sale goes through; `toBigInt` takes the integers and, as the library does,
throws on a boolean. -/
def sampleContract : WriteContract :=
  { isSellerRegistered := fun _ => Completion.returned true
    toBigInt := fun value =>
      match value with
      | Json.num (JsNum.fin q) =>
        if q.den = 1 then Completion.returned q.num
        else Completion.thrown "underflow"
      | _ => Completion.thrown "invalid BigNumberish value"
    recordSaleMultiple := fun _ _ _ _ => Completion.returned "0x5a1e" }

/-- The request body
`{ sellerId: "SEL1a2b3c4", buyerName: "Bob", quantityKg: true, price: 10 }`. -/
def bodyWithBooleanQuantity : SaleBody :=
  { sellerId := some (Json.str "SEL1a2b3c4")
    buyerName := some (Json.str "Bob")
    quantityKg := some (Json.bool true)
    price := some (Json.num (JsNum.fin 10)) }

/-- The request body `{ sellerId: "SEL1a2b3c4", buyerName: "Bob",
quantityKg: { valueOf: 1, toString: 1 }, price: -1 }`. -/
def bodyWithObjectQuantity : SaleBody :=
  { sellerId := some (Json.str "SEL1a2b3c4")
    buyerName := some (Json.str "Bob")
    quantityKg := some (Json.obj
      [("valueOf", Json.num (JsNum.fin 1)), ("toString", Json.num (JsNum.fin 1))])
    price := some (Json.num (JsNum.fin (-1))) }

/-- The request body
`{ sellerId: "SEL1a2b3c4", buyerName: "Bob", quantityKg: -3, price: 10 }`. -/
def bodyWithNegativeQuantity : SaleBody :=
  { sellerId := some (Json.str "SEL1a2b3c4")
    buyerName := some (Json.str "Bob")
    quantityKg := some (Json.num (JsNum.fin (-3)))
    price := some (Json.num (JsNum.fin 10)) }

/-- Six sales by six sellers, of 1 to 6 kg at price 10. -/
def sixSales : List ContractSale :=
  [{ sellerId := "SEL0000001", buyerName := "Bob", quantityKg := 1, price := 10 },
   { sellerId := "SEL0000002", buyerName := "Bob", quantityKg := 2, price := 10 },
   { sellerId := "SEL0000003", buyerName := "Bob", quantityKg := 3, price := 10 },
   { sellerId := "SEL0000004", buyerName := "Bob", quantityKg := 4, price := 10 },
   { sellerId := "SEL0000005", buyerName := "Bob", quantityKg := 5, price := 10 },
   { sellerId := "SEL0000006", buyerName := "Bob", quantityKg := 6, price := 10 }]

/-- Four sales by four sellers at price 1, one of them of `2^53` kg. -/
def largeSales : List ContractSale :=
  [{ sellerId := "SEL000000b", buyerName := "Bob", quantityKg := 1, price := 1 },
   { sellerId := "SEL000000c", buyerName := "Bob", quantityKg := 1, price := 1 },
   { sellerId := "SEL000000a", buyerName := "Bob", quantityKg := 2 ^ 53, price := 1 },
   { sellerId := "SEL000000d", buyerName := "Bob", quantityKg := 1, price := 1 }]

/-- A contract that holds the given sales, by as many sellers. -/
def contractHolding (sales : List ContractSale) : ReadContract :=
  { getSalesCount := Completion.returned sales.length
    getSellersCount := Completion.returned sales.length
    getSale := fun i =>
      match sales[i]? with
      | some sale => Completion.returned sale
      | none => Completion.thrown "sale does not exist" }

/-- The body `GET /sales-summary` sends for the six sample sales. -/
def sixSellersBody : SalesSummaryBody :=
  { totalSales := Double.fin 6
    totalSellers := Double.fin 6
    totalCocoaSold := Double.fin 21
    totalRevenue := Double.fin 210
    topSellers :=
      [{ sellerId := "SEL0000006", sales := Double.fin 1, quantity := Double.fin 6
         revenue := Double.fin 60 },
       { sellerId := "SEL0000005", sales := Double.fin 1, quantity := Double.fin 5
         revenue := Double.fin 50 },
       { sellerId := "SEL0000004", sales := Double.fin 1, quantity := Double.fin 4
         revenue := Double.fin 40 },
       { sellerId := "SEL0000003", sales := Double.fin 1, quantity := Double.fin 3
         revenue := Double.fin 30 },
       { sellerId := "SEL0000002", sales := Double.fin 1, quantity := Double.fin 2
         revenue := Double.fin 20 }] }

/-- The body `GET /sales-summary` sends for the four large sample sales. -/
def largeSalesBody : SalesSummaryBody :=
  { totalSales := Double.fin 4
    totalSellers := Double.fin 4
    totalCocoaSold := Double.fin 9007199254740996
    totalRevenue := Double.fin 9007199254740996
    topSellers :=
      [{ sellerId := "SEL000000a", sales := Double.fin 1
         quantity := Double.fin 9007199254740992
         revenue := Double.fin 9007199254740992 },
       { sellerId := "SEL000000b", sales := Double.fin 1, quantity := Double.fin 1
         revenue := Double.fin 1 },
       { sellerId := "SEL000000c", sales := Double.fin 1, quantity := Double.fin 1
         revenue := Double.fin 1 },
       { sellerId := "SEL000000d", sales := Double.fin 1, quantity := Double.fin 1
         revenue := Double.fin 1 }] }

/-! # Theorems -/

/-! ## Proof of work -/

namespace Blockchain

theorem hashBlock_state (self : Blockchain) (sha256 : String → String)
    (prevHash blockData : String) (nonce : Nat) :
    (hashBlock self sha256 prevHash blockData nonce).2 = self := rfl

/-- What the loop returns is a nonce at or after its start whose hash has the
target, every nonce between the start and it fails the test, and the state is
the one it started in. -/
theorem proofOfWorkLoop_sound (sha256 : String → String)
    (prevHash blockData : String) (self : Blockchain) :
    ∀ (fuel start n : Nat) (after : Blockchain),
      proofOfWorkLoop sha256 prevHash blockData fuel start self = some (n, after) →
      after = self ∧ start ≤ n
        ∧ startsWith00 (hashBlock self sha256 prevHash blockData n).1 = true
        ∧ ∀ m, start ≤ m → m < n →
            startsWith00 (hashBlock self sha256 prevHash blockData m).1 = false := by
  intro fuel
  induction fuel with
  | zero => intro start n after h; simp [proofOfWorkLoop] at h
  | succ fuel ih =>
    intro start n after h
    unfold proofOfWorkLoop at h
    simp only [hashBlock_state] at h
    by_cases hit : startsWith00 (hashBlock self sha256 prevHash blockData start).1 = true
    · rw [if_pos hit] at h
      obtain ⟨rfl, rfl⟩ : start = n ∧ self = after := by simpa using h
      exact ⟨rfl, le_refl _, hit, fun m h1 h2 => absurd h2 (by omega)⟩
    · rw [if_neg hit] at h
      obtain ⟨hs, hle, hn, hmin⟩ := ih _ _ _ h
      have miss : startsWith00 (hashBlock self sha256 prevHash blockData start).1 = false := by
        simpa using hit
      by_cases hlt : start < maxNonce
      · have hinc : increment start = start + 1 := by
          unfold increment; rw [if_pos hlt]
        rw [hinc] at hle hmin
        refine ⟨hs, by omega, hn, fun m h1 h2 => ?_⟩
        rcases Nat.eq_or_lt_of_le h1 with rfl | h3
        · exact miss
        · exact hmin m (by omega) h2
      · have hinc : increment start = start := by
          unfold increment; rw [if_neg hlt]
        rw [hinc] at hle hmin
        exact ⟨hs, hle, hn, hmin⟩

/-- The loop returns the first nonce with the target once the fuel covers the
distance to it, provided the counter can reach it. -/
theorem proofOfWorkLoop_complete (sha256 : String → String)
    (prevHash blockData : String) (self : Blockchain) (n : Nat)
    (hmax : n ≤ maxNonce)
    (hit : startsWith00 (hashBlock self sha256 prevHash blockData n).1 = true) :
    ∀ (fuel start : Nat), start ≤ n → n - start < fuel →
      (∀ m, start ≤ m → m < n →
        startsWith00 (hashBlock self sha256 prevHash blockData m).1 = false) →
      proofOfWorkLoop sha256 prevHash blockData fuel start self = some (n, self) := by
  intro fuel
  induction fuel with
  | zero => intro start _ h; omega
  | succ fuel ih =>
    intro start hle hfuel hmiss
    unfold proofOfWorkLoop
    simp only [hashBlock_state]
    rcases Nat.eq_or_lt_of_le hle with rfl | hlt
    · rw [if_pos hit]
    · have miss := hmiss start (le_refl _) hlt
      rw [if_neg (by simp [miss])]
      have hinc : increment start = start + 1 := by
        unfold increment; rw [if_pos (by omega)]
      rw [hinc]
      exact ih (start + 1) (by omega) (by omega) fun m h1 h2 => hmiss m (by omega) h2

end Blockchain

/-- C1. Whenever `proofOfWork(prevHash, blockData)` returns a nonce `n`, the
hash at `n` begins with "00" and the hash at every `m < n` does not, for any
function in the place of `sha256`; and the call does return the smallest such
nonce `n` (of at most `2^53`) once it is given more than `n` steps. -/
theorem proofOfWork_returns_least_nonce (self : Blockchain)
    (sha256 : String → String) (prevHash blockData : String) (fuel n : Nat) :
    (∀ after, self.proofOfWork sha256 prevHash blockData fuel = some (n, after) →
        startsWith00 (self.hashBlock sha256 prevHash blockData n).1 = true
        ∧ ∀ m, m < n →
            startsWith00 (self.hashBlock sha256 prevHash blockData m).1 = false)
    ∧ (n ≤ maxNonce → n < fuel →
        startsWith00 (self.hashBlock sha256 prevHash blockData n).1 = true →
        (∀ m, m < n →
            startsWith00 (self.hashBlock sha256 prevHash blockData m).1 = false) →
        self.proofOfWork sha256 prevHash blockData fuel = some (n, self)) := by
  constructor
  · intro after h
    obtain ⟨_, _, hn, hmin⟩ :=
      Blockchain.proofOfWorkLoop_sound sha256 prevHash blockData self fuel 0 n after h
    exact ⟨hn, fun m hm => hmin m (Nat.zero_le m) hm⟩
  · intro hmax hfuel hit hmiss
    exact Blockchain.proofOfWorkLoop_complete sha256 prevHash blockData self n hmax hit
      fuel 0 (Nat.zero_le n) (by omega) fun m _ hm => hmiss m hm

/-- C1 at a concrete ledger and hash: the scan over `sampleHash` from
`"ab"` and `"{}"` returns 3, the first nonce with the target. -/
theorem proofOfWork_returns_least_nonce_witness :
    (Blockchain.new JsVal.undefined 0).proofOfWork sampleHash "ab" "{}" 10
        = some (3, Blockchain.new JsVal.undefined 0)
    ∧ (startsWith00
          ((Blockchain.new JsVal.undefined 0).hashBlock sampleHash "ab" "{}" 3).1 = true
      ∧ ∀ m, m < 3 →
          startsWith00
            ((Blockchain.new JsVal.undefined 0).hashBlock sampleHash "ab" "{}" m).1 = false) :=
  have run : (Blockchain.new JsVal.undefined 0).proofOfWork sampleHash "ab" "{}" 10
      = some (3, Blockchain.new JsVal.undefined 0) := by decide
  ⟨run, (proofOfWork_returns_least_nonce (Blockchain.new JsVal.undefined 0)
    sampleHash "ab" "{}" 10 3).1 _ run⟩

/-! ## The ledger only grows -/

namespace Blockchain

theorem foldl_append_sales (blocks : List Block) (init : List Sale) :
    blocks.foldl (fun allSales block => allSales ++ block.sales) init
      = init ++ (blocks.map Block.sales).flatten := by
  induction blocks generalizing init with
  | nil => simp
  | cons block rest ih => simp [ih, List.append_assoc]

/-- The result of `getAllSales()` is the concatenation of the blocks' sales in
chain order. -/
theorem getAllSales_eq_flatten (self : Blockchain) :
    self.getAllSales.1 = (self.chain.map Block.sales).flatten := by
  simp [getAllSales, foldl_append_sales]

theorem proofOfWork_state (self : Blockchain) (sha256 : String → String)
    (prevHash blockData : String) (fuel n : Nat) (after : Blockchain)
    (h : self.proofOfWork sha256 prevHash blockData fuel = some (n, after)) :
    after = self :=
  (proofOfWorkLoop_sound sha256 prevHash blockData self fuel 0 n after h).1

theorem addSaleToPending_chain (self : Blockchain) (sale : Option Sale) :
    (self.addSaleToPending sale).2.chain = self.chain := by
  cases sale with
  | none => rfl
  | some sale =>
    simp only [addSaleToPending]
    split <;> rfl

end Blockchain

/-- C8. `createNewBlock` appends exactly one block, whose sales are the
pending sales in their order, empties `pendingSales` and keeps every earlier
block; the other eight methods leave the chain as it is; and `getAllSales()`
after `createNewBlock` is `getAllSales()` before it followed by the sales that
were pending. -/
theorem ledger_is_additive (js : Builtins) (self : Blockchain)
    (nonce previousBlockHash hash sellerId buyerName quantityKg price : JsVal)
    (now : Nat) (sale : Option Sale) (sha256 : String → String)
    (prevHash blockData : String) (hashNonce fuel : Nat) :
    (self.createNewBlock nonce previousBlockHash hash now).2.chain
        = self.chain ++ [(self.createNewBlock nonce previousBlockHash hash now).1]
    ∧ (self.createNewBlock nonce previousBlockHash hash now).1.sales
        = self.pendingSales
    ∧ (self.createNewBlock nonce previousBlockHash hash now).2.pendingSales = []
    ∧ (∀ i, i < self.chain.length →
        (self.createNewBlock nonce previousBlockHash hash now).2.chain[i]?
          = self.chain[i]?)
    ∧ (self.createSale js sellerId buyerName quantityKg price now).2.chain
        = self.chain
    ∧ (self.addSaleToPending sale).2.chain = self.chain
    ∧ self.getLastBlock.2.chain = self.chain
    ∧ (self.hashBlock sha256 prevHash blockData hashNonce).2.chain = self.chain
    ∧ (∀ n after,
        self.proofOfWork sha256 prevHash blockData fuel = some (n, after) →
        after.chain = self.chain)
    ∧ (self.salesSummary js).2.chain = self.chain
    ∧ self.getAllSales.2.chain = self.chain
    ∧ (self.getSellerSales sellerId).2.chain = self.chain
    ∧ (self.createNewBlock nonce previousBlockHash hash now).2.getAllSales.1
        = self.getAllSales.1 ++ self.pendingSales := by
  refine ⟨rfl, rfl, rfl, ?_, ?_, Blockchain.addSaleToPending_chain self sale, rfl, rfl,
    ?_, rfl, rfl, rfl, ?_⟩
  · intro i hi
    simp [Blockchain.createNewBlock, List.getElem?_append_left hi]
  · simp only [Blockchain.createSale]
    split <;> rfl
  · intro n after h
    rw [Blockchain.proofOfWork_state self sha256 prevHash blockData fuel n after h]
  · simp [Blockchain.getAllSales_eq_flatten, Blockchain.createNewBlock]

/-! ## Block indices -/

namespace Blockchain

theorem indexed_createNewBlock (self : Blockchain)
    (nonce previousBlockHash hash : JsVal) (now : Nat)
    (h : ∀ (i : Nat) (block : Block), self.chain[i]? = some block → block.index = i) :
    Indexed (self.createNewBlock nonce previousBlockHash hash now).2 := by
  refine ⟨by simp [createNewBlock], fun i block hget => ?_⟩
  simp only [createNewBlock] at hget
  rcases Nat.lt_or_ge i self.chain.length with hi | hi
  · rw [List.getElem?_append_left hi] at hget
    exact h i block hget
  · rw [List.getElem?_append_right hi] at hget
    rcases Nat.eq_zero_or_pos (i - self.chain.length) with h0 | hpos
    · rw [h0] at hget
      simp only [List.getElem?_cons_zero, Option.some.injEq] at hget
      subst hget
      show self.chain.length = i
      omega
    · obtain ⟨k, hk⟩ := Nat.exists_eq_succ_of_ne_zero (Nat.pos_iff_ne_zero.mp hpos)
      rw [hk] at hget
      simp at hget

theorem indexed_of_reachable (self : Blockchain) (h : Reachable self) :
    Indexed self := by
  induction h with
  | construct currentNodeUrl now =>
    exact indexed_createNewBlock _ _ _ _ _ (by simp)
  | createNewBlock nonce previousBlockHash hash now _ ih =>
    exact indexed_createNewBlock _ _ _ _ _ ih.2
  | @addSaleToPending self sale _ ih =>
    unfold Indexed
    rw [addSaleToPending_chain]
    exact ih

theorem getLastBlock_of_indexed (self : Blockchain) (h : Indexed self) :
    ∃ block, self.getLastBlock.1 = some block
      ∧ block.index + 1 = self.chain.length := by
  have hpos : 0 < self.chain.length := List.length_pos.mpr h.1
  have hlt : self.chain.length - 1 < self.chain.length := by omega
  refine ⟨self.chain[self.chain.length - 1], ?_, ?_⟩
  · simp [getLastBlock, List.getElem?_eq_getElem hlt]
  · have := h.2 (self.chain.length - 1) _ (List.getElem?_eq_getElem hlt)
    omega

theorem addSaleToPending_some (self : Blockchain) (h : Indexed self)
    (sale : Sale) :
    self.addSaleToPending (some sale)
      = (Completion.returned (some self.chain.length),
          { self with pendingSales := self.pendingSales ++ [sale] }) := by
  obtain ⟨block, hlast, hidx⟩ :=
    getLastBlock_of_indexed { self with pendingSales := self.pendingSales ++ [sale] } h
  simp only [addSaleToPending, hlast]
  rw [hidx]

/-- Further `addSaleToPending` calls keep the chain and what is pending. -/
theorem foldl_addSaleToPending (more : List (Option Sale)) :
    ∀ self : Blockchain, Indexed self →
      (more.foldl (fun state next => (state.addSaleToPending next).2) self).chain
          = self.chain
      ∧ ∀ sale ∈ self.pendingSales,
          sale ∈ (more.foldl (fun state next => (state.addSaleToPending next).2)
            self).pendingSales := by
  induction more with
  | nil => intro self _; exact ⟨rfl, fun _ h => h⟩
  | cons next rest ih =>
    intro self hself
    have hnext : Indexed (self.addSaleToPending next).2 := by
      unfold Indexed; rw [addSaleToPending_chain]; exact hself
    obtain ⟨hchain, hpending⟩ := ih (self.addSaleToPending next).2 hnext
    refine ⟨by simpa [addSaleToPending_chain] using hchain, fun sale hsale => ?_⟩
    apply hpending
    cases next with
    | none => exact hsale
    | some added =>
      rw [addSaleToPending_some self hself added]
      exact List.mem_append_left _ hsale

end Blockchain

/-- C9. In a ledger state reached from the constructor by `createNewBlock`
and `addSaleToPending` calls the chain is not empty and the block at position
`i` has index `i`; `addSaleToPending` of a sale returns `chain.length`, and
the next `createNewBlock`, whatever further sales are added before it, makes
the block at that position, with that index and holding the sale; for a null
or absent sale `addSaleToPending` returns `null` and changes nothing. -/
theorem reachable_block_indices (self : Blockchain) (h : Reachable self)
    (sale : Sale) (more : List (Option Sale))
    (nonce previousBlockHash hash : JsVal) (now : Nat) :
    self.chain ≠ []
    ∧ (∀ (i : Nat) (block : Block), self.chain[i]? = some block → block.index = i)
    ∧ (self.addSaleToPending (some sale)).1
        = Completion.returned (some self.chain.length)
    ∧ ((more.foldl (fun state next => (state.addSaleToPending next).2)
          (self.addSaleToPending (some sale)).2).createNewBlock
            nonce previousBlockHash hash now).1.index = self.chain.length
    ∧ sale ∈ ((more.foldl (fun state next => (state.addSaleToPending next).2)
          (self.addSaleToPending (some sale)).2).createNewBlock
            nonce previousBlockHash hash now).1.sales
    ∧ ((more.foldl (fun state next => (state.addSaleToPending next).2)
          (self.addSaleToPending (some sale)).2).createNewBlock
            nonce previousBlockHash hash now).2.chain[self.chain.length]?
        = some ((more.foldl (fun state next => (state.addSaleToPending next).2)
          (self.addSaleToPending (some sale)).2).createNewBlock
            nonce previousBlockHash hash now).1
    ∧ self.addSaleToPending none = (Completion.returned none, self) := by
  have hself := Blockchain.indexed_of_reachable self h
  have hadd := Blockchain.addSaleToPending_some self hself sale
  have hafter : Blockchain.Indexed (self.addSaleToPending (some sale)).2 := by
    unfold Blockchain.Indexed; rw [Blockchain.addSaleToPending_chain]; exact hself
  obtain ⟨hchain, hpending⟩ :=
    Blockchain.foldl_addSaleToPending more (self.addSaleToPending (some sale)).2 hafter
  rw [Blockchain.addSaleToPending_chain] at hchain
  refine ⟨hself.1, hself.2, by rw [hadd], ?_, ?_, ?_, rfl⟩
  · simp [Blockchain.createNewBlock, hchain]
  · apply hpending
    rw [hadd]
    simp
  · simp only [Blockchain.createNewBlock, hchain]
    rw [List.getElem?_append_right (le_refl _)]
    simp

/-- C9 at the freshly constructed ledger: it is reachable, and a sale added
to it lands in block 1. -/
theorem reachable_block_indices_witness :
    Reachable (Blockchain.new JsVal.undefined 0)
    ∧ ((Blockchain.new JsVal.undefined 0).addSaleToPending (some sampleSale)).1
        = Completion.returned (some 1) :=
  ⟨Reachable.construct JsVal.undefined 0,
    (reachable_block_indices (Blockchain.new JsVal.undefined 0)
      (Reachable.construct JsVal.undefined 0) sampleSale [] JsVal.undefined
      JsVal.undefined JsVal.undefined 0).2.2.1⟩

/-! ## Queries of the ledger -/

namespace Blockchain

theorem foldl_push_matching (sellerId : JsVal) (sales init : List Sale) :
    sales.foldl
        (fun sellerSales sale =>
          if sale.sellerId.strictEq sellerId then sellerSales ++ [sale]
          else sellerSales)
        init
      = init ++ sales.filter fun sale => sale.sellerId.strictEq sellerId := by
  induction sales generalizing init with
  | nil => simp
  | cons sale rest ih =>
    by_cases h : sale.sellerId.strictEq sellerId = true
    · simp [ih, h]
    · simp [ih, h]

/-- The result of `getSellerSales(sellerId)` is `getAllSales()` restricted to
the sales whose `sellerId` is strictly equal to the argument, in the same
order. -/
theorem getSellerSales_eq_filter (self : Blockchain) (sellerId : JsVal) :
    (self.getSellerSales sellerId).1
      = self.getAllSales.1.filter fun sale => sale.sellerId.strictEq sellerId := by
  have key : ∀ (blocks : List Block) (init : List Sale),
      blocks.foldl
          (fun sellerSales block =>
            block.sales.foldl
              (fun sellerSales sale =>
                if sale.sellerId.strictEq sellerId then sellerSales ++ [sale]
                else sellerSales)
              sellerSales)
          init
        = init ++ ((blocks.map Block.sales).flatten.filter
            fun sale => sale.sellerId.strictEq sellerId) := by
    intro blocks
    induction blocks with
    | nil => simp
    | cons block rest ih =>
      intro init
      rw [List.foldl_cons, foldl_push_matching, ih]
      simp [List.append_assoc]
  simp [getSellerSales, getAllSales_eq_flatten, key]

end Blockchain

/-- The ledger after one sale by the seller named "constructor". -/
theorem ledgerWithSaleOf_constructor (js : Builtins) :
    ledgerWithSaleOf js (JsVal.str "constructor")
      = { chain :=
            [{ index := 0, timestamp := 0, sales := []
               nonce := JsVal.num (JsNum.fin 100), hash := JsVal.str "0"
               previousBlockHash := JsVal.str "0" },
             { index := 1, timestamp := 2
               sales :=
                 [{ sellerId := JsVal.str "constructor", buyerName := JsVal.str "Bob"
                    quantityKg := JsVal.num (JsNum.fin 5)
                    price := JsVal.num (JsNum.fin 2), timestamp := 1 }]
               nonce := JsVal.num (JsNum.fin 7), hash := JsVal.str "00ab"
               previousBlockHash := JsVal.str "0" }]
          pendingSales := []
          currentNodeUrl := JsVal.str "http://localhost:3001"
          networkNodes := [] } := rfl

/-- C2 at a failing ledger. After one sale of 5 kg at price 2 by the seller
named "constructor", `salesSummary()` has no entry in `summaryPerSeller`,
while `totalCocoa` is 5 and `totalRevenue` is 10: the totals are not the sums
over the entries, and the sales counts add up to 0 for one recorded sale. -/
theorem salesSummary_misses_inherited_key (js : Builtins) :
    ((ledgerWithSaleOf js (JsVal.str "constructor")).salesSummary js).1
        = { summaryPerSeller := []
            totalCocoa := JsVal.num (JsNum.fin 5)
            totalRevenue := JsVal.num (JsNum.fin 10) }
    ∧ sumQuantity js
        ((ledgerWithSaleOf js (JsVal.str "constructor")).salesSummary js).1.summaryPerSeller
        = JsVal.num (JsNum.fin 0)
    ∧ sumRevenue js
        ((ledgerWithSaleOf js (JsVal.str "constructor")).salesSummary js).1.summaryPerSeller
        = JsVal.num (JsNum.fin 0)
    ∧ sumSales
        ((ledgerWithSaleOf js (JsVal.str "constructor")).salesSummary js).1.summaryPerSeller
        = 0
    ∧ (ledgerWithSaleOf js (JsVal.str "constructor")).getAllSales.1.length = 1 := by
  have hsum : ((ledgerWithSaleOf js (JsVal.str "constructor")).salesSummary js).1
        = { summaryPerSeller := []
            totalCocoa := JsVal.num (JsNum.fin 5)
            totalRevenue := JsVal.num (JsNum.fin 10) } := by
    rw [ledgerWithSaleOf_constructor]
    simp only [Blockchain.salesSummary, Blockchain.salesSummaryStep, List.foldl_cons,
      List.foldl_nil, JsVal.toJsString, JsObject.truthyAt, JsObject.update,
      JsObject.define, objectPrototypeKeys, JsVal.add, JsVal.mul, JsNum.add,
      JsNum.mul, JsVal.toNumber]
    norm_num
  refine ⟨hsum, ?_, ?_, ?_, ?_⟩
  · rw [hsum]; rfl
  · rw [hsum]; rfl
  · rw [hsum]; rfl
  · rw [ledgerWithSaleOf_constructor]; rfl

/-- C3 at a failing call. `createSale("S1", "Bob", undefined, undefined)`
returns a sale object, with `quantityKg` and `price` undefined, and not
`null`: the comparison `undefined <= 0` is false. -/
theorem createSale_accepts_missing_numbers (js : Builtins) (self : Blockchain)
    (now : Nat) :
    (self.createSale js (JsVal.str "S1") (JsVal.str "Bob") JsVal.undefined
        JsVal.undefined now).1
      = some
          { sellerId := JsVal.str "S1"
            buyerName := JsVal.str "Bob"
            quantityKg := JsVal.undefined
            price := JsVal.undefined
            timestamp := now } := rfl

/-- C10 at a failing ledger. After one sale by the seller named
"constructor", `getSellerSales("constructor")` has one element, and
`summaryPerSeller` has no own entry for that seller whose `sales` could be
1. -/
theorem summary_count_misses_inherited_key (js : Builtins) :
    ((ledgerWithSaleOf js (JsVal.str "constructor")).getSellerSales
        (JsVal.str "constructor")).1.length = 1
    ∧ (((ledgerWithSaleOf js (JsVal.str "constructor")).salesSummary js).1.summaryPerSeller.lookup
        "constructor") = none := by
  constructor
  · rw [ledgerWithSaleOf_constructor]; rfl
  · rw [ledgerWithSaleOf_constructor]; rfl

/-! ## Seller ids -/

set_option maxRecDepth 100000 in
/-- One step of the loop on a well-formed byte: the character appended is the
lowercase digit of the byte's low nibble. -/
theorem hexCharsAt_parseInt16_pair :
    ∀ a ∈ hexDigitChars, ∀ b ∈ hexDigitChars,
      hexCharsAt (parseInt16 [a, b])
        = [Nat.digitChar ((16 * digitValue a + digitValue b) % 16)] := by
  decide

theorem toLower_hexDigit :
    ∀ c ∈ hexDigitChars,
      c.toLower ∈ hexDigitChars ∧ digitValue c.toLower = digitValue c := by
  decide

theorem digitChar_nibble_lowercase :
    ∀ n, n < 16 → Nat.digitChar n ∈ "0123456789abcdef".toList := by
  decide

/-- The seller id of an address, in terms of its first fourteen digits. -/
theorem generateSellerId_digits
    (d0 d1 d2 d3 d4 d5 d6 d7 d8 d9 d10 d11 d12 d13 : Char) (rest : List Char)
    (h0 : d0 ∈ hexDigitChars) (h1 : d1 ∈ hexDigitChars) (h2 : d2 ∈ hexDigitChars)
    (h3 : d3 ∈ hexDigitChars) (h4 : d4 ∈ hexDigitChars) (h5 : d5 ∈ hexDigitChars)
    (h6 : d6 ∈ hexDigitChars) (h7 : d7 ∈ hexDigitChars) (h8 : d8 ∈ hexDigitChars)
    (h9 : d9 ∈ hexDigitChars) (h10 : d10 ∈ hexDigitChars)
    (h11 : d11 ∈ hexDigitChars) (h12 : d12 ∈ hexDigitChars)
    (h13 : d13 ∈ hexDigitChars) :
    generateSellerId
        (String.mk ('0' :: 'x' :: d0 :: d1 :: d2 :: d3 :: d4 :: d5 :: d6 :: d7
          :: d8 :: d9 :: d10 :: d11 :: d12 :: d13 :: rest))
      = String.mk
          ['S', 'E', 'L',
            Nat.digitChar ((16 * digitValue d0 + digitValue d1) % 16),
            Nat.digitChar ((16 * digitValue d2 + digitValue d3) % 16),
            Nat.digitChar ((16 * digitValue d4 + digitValue d5) % 16),
            Nat.digitChar ((16 * digitValue d6 + digitValue d7) % 16),
            Nat.digitChar ((16 * digitValue d8 + digitValue d9) % 16),
            Nat.digitChar ((16 * digitValue d10 + digitValue d11) % 16),
            Nat.digitChar ((16 * digitValue d12 + digitValue d13) % 16)] := by
  have hrange : List.range 7 = [0, 1, 2, 3, 4, 5, 6] := by decide
  unfold generateSellerId
  rw [hrange]
  have hdrop : List.drop 2 (String.mk ('0' :: 'x' :: d0 :: d1 :: d2 :: d3 :: d4 :: d5
      :: d6 :: d7 :: d8 :: d9 :: d10 :: d11 :: d12 :: d13 :: rest)).toList
      = d0 :: d1 :: d2 :: d3 :: d4 :: d5 :: d6 :: d7 :: d8 :: d9 :: d10 :: d11
          :: d12 :: d13 :: rest := rfl
  rw [hdrop]
  simp only [List.foldl_cons, List.foldl_nil]
  have s0 : ∀ l : List Char, slice (d0 :: d1 :: l) (0 * 2) (0 * 2 + 2) = [d0, d1] :=
    fun _ => rfl
  have s1 : ∀ l : List Char,
      slice (d0 :: d1 :: d2 :: d3 :: l) (1 * 2) (1 * 2 + 2) = [d2, d3] := fun _ => rfl
  have s2 : ∀ l : List Char,
      slice (d0 :: d1 :: d2 :: d3 :: d4 :: d5 :: l) (2 * 2) (2 * 2 + 2) = [d4, d5] :=
    fun _ => rfl
  have s3 : ∀ l : List Char,
      slice (d0 :: d1 :: d2 :: d3 :: d4 :: d5 :: d6 :: d7 :: l) (3 * 2) (3 * 2 + 2)
        = [d6, d7] := fun _ => rfl
  have s4 : ∀ l : List Char,
      slice (d0 :: d1 :: d2 :: d3 :: d4 :: d5 :: d6 :: d7 :: d8 :: d9 :: l)
        (4 * 2) (4 * 2 + 2) = [d8, d9] := fun _ => rfl
  have s5 : ∀ l : List Char,
      slice (d0 :: d1 :: d2 :: d3 :: d4 :: d5 :: d6 :: d7 :: d8 :: d9 :: d10 :: d11 :: l)
        (5 * 2) (5 * 2 + 2) = [d10, d11] := fun _ => rfl
  have s6 : ∀ l : List Char,
      slice (d0 :: d1 :: d2 :: d3 :: d4 :: d5 :: d6 :: d7 :: d8 :: d9 :: d10 :: d11
        :: d12 :: d13 :: l) (6 * 2) (6 * 2 + 2) = [d12, d13] := fun _ => rfl
  rw [s0, s1, s2, s3, s4, s5, s6,
    hexCharsAt_parseInt16_pair d0 h0 d1 h1, hexCharsAt_parseInt16_pair d2 h2 d3 h3,
    hexCharsAt_parseInt16_pair d4 h4 d5 h5, hexCharsAt_parseInt16_pair d6 h6 d7 h7,
    hexCharsAt_parseInt16_pair d8 h8 d9 h9, hexCharsAt_parseInt16_pair d10 h10 d11 h11,
    hexCharsAt_parseInt16_pair d12 h12 d13 h13]
  rfl

/-- C7. For a wallet address `0x` followed by 40 hexadecimal digits of either
case, `generateSellerId` returns `SEL` followed by seven characters, the
`i`-th being the lowercase hexadecimal digit of the `i`-th byte modulo 16; the
result has 10 characters, and it is the same for the address spelled in
lowercase. -/
theorem generateSellerId_low_nibbles (digits : List Char)
    (hlen : digits.length = 40) (hhex : ∀ c ∈ digits, c ∈ hexDigitChars) :
    generateSellerId (String.mk ('0' :: 'x' :: digits))
        = String.mk ("SEL".toList
            ++ (List.range 7).map fun i => Nat.digitChar (addressByte digits i % 16))
    ∧ (generateSellerId (String.mk ('0' :: 'x' :: digits))).length = 10
    ∧ (∀ c ∈ (List.range 7).map fun i => Nat.digitChar (addressByte digits i % 16),
        c ∈ "0123456789abcdef".toList)
    ∧ generateSellerId (String.mk ('0' :: 'x' :: digits.map Char.toLower))
        = generateSellerId (String.mk ('0' :: 'x' :: digits)) := by
  have hrange : List.range 7 = [0, 1, 2, 3, 4, 5, 6] := by decide
  rcases digits with _ | ⟨d0, _ | ⟨d1, _ | ⟨d2, _ | ⟨d3, _ | ⟨d4, _ | ⟨d5, _ | ⟨d6,
    _ | ⟨d7, _ | ⟨d8, _ | ⟨d9, _ | ⟨d10, _ | ⟨d11, _ | ⟨d12, _ | ⟨d13, rest⟩⟩⟩⟩⟩⟩⟩⟩⟩⟩⟩⟩⟩⟩
  all_goals try (simp at hlen; done)
  have h0 := hhex d0 (by simp)
  have h1 := hhex d1 (by simp)
  have h2 := hhex d2 (by simp)
  have h3 := hhex d3 (by simp)
  have h4 := hhex d4 (by simp)
  have h5 := hhex d5 (by simp)
  have h6 := hhex d6 (by simp)
  have h7 := hhex d7 (by simp)
  have h8 := hhex d8 (by simp)
  have h9 := hhex d9 (by simp)
  have h10 := hhex d10 (by simp)
  have h11 := hhex d11 (by simp)
  have h12 := hhex d12 (by simp)
  have h13 := hhex d13 (by simp)
  have hid := generateSellerId_digits d0 d1 d2 d3 d4 d5 d6 d7 d8 d9 d10 d11 d12 d13
    rest h0 h1 h2 h3 h4 h5 h6 h7 h8 h9 h10 h11 h12 h13
  have hlow := generateSellerId_digits d0.toLower d1.toLower d2.toLower d3.toLower
    d4.toLower d5.toLower d6.toLower d7.toLower d8.toLower d9.toLower d10.toLower
    d11.toLower d12.toLower d13.toLower (rest.map Char.toLower)
    (toLower_hexDigit d0 h0).1 (toLower_hexDigit d1 h1).1 (toLower_hexDigit d2 h2).1
    (toLower_hexDigit d3 h3).1 (toLower_hexDigit d4 h4).1 (toLower_hexDigit d5 h5).1
    (toLower_hexDigit d6 h6).1 (toLower_hexDigit d7 h7).1 (toLower_hexDigit d8 h8).1
    (toLower_hexDigit d9 h9).1 (toLower_hexDigit d10 h10).1
    (toLower_hexDigit d11 h11).1 (toLower_hexDigit d12 h12).1
    (toLower_hexDigit d13 h13).1
  refine ⟨?_, ?_, ?_, ?_⟩
  · rw [hid, hrange]; rfl
  · rw [hid]; rfl
  · intro c hc
    rw [List.mem_map] at hc
    obtain ⟨i, _, rfl⟩ := hc
    exact digitChar_nibble_lowercase _ (Nat.mod_lt _ (by decide))
  · rw [hid]
    simp only [List.map_cons]
    rw [hlow, (toLower_hexDigit d0 h0).2, (toLower_hexDigit d1 h1).2,
      (toLower_hexDigit d2 h2).2, (toLower_hexDigit d3 h3).2,
      (toLower_hexDigit d4 h4).2, (toLower_hexDigit d5 h5).2,
      (toLower_hexDigit d6 h6).2, (toLower_hexDigit d7 h7).2,
      (toLower_hexDigit d8 h8).2, (toLower_hexDigit d9 h9).2,
      (toLower_hexDigit d10 h10).2, (toLower_hexDigit d11 h11).2,
      (toLower_hexDigit d12 h12).2, (toLower_hexDigit d13 h13).2]

/-- C7 at the address the server falls back to:
`0xe7f1725E7734CE288F8367e1Bb143E90bb3F0512` has the seller id
`SEL712e74e`. -/
theorem generateSellerId_low_nibbles_witness :
    sampleAddressDigits.length = 40
    ∧ (∀ c ∈ sampleAddressDigits, c ∈ hexDigitChars)
    ∧ generateSellerId (String.mk ('0' :: 'x' :: sampleAddressDigits)) = "SEL712e74e"
    ∧ generateSellerId
        (String.mk ('0' :: 'x' :: sampleAddressDigits.map Char.toLower))
        = generateSellerId (String.mk ('0' :: 'x' :: sampleAddressDigits)) :=
  ⟨by decide, by decide,
    (generateSellerId_low_nibbles sampleAddressDigits (by decide) (by decide)).1.trans
      (by decide),
    (generateSellerId_low_nibbles sampleAddressDigits (by decide) (by decide)).2.2.2⟩

/-! ## Objects used as maps: entries and sums -/

namespace JsObject

variable {β : Type}

theorem lookup_isSome_iff_mem_keys (obj : JsObject β) (key : String) :
    (obj.lookup key).isSome = true ↔ key ∈ obj.map Prod.fst := by
  rw [List.lookup_isSome_iff]
  simp only [List.mem_map, beq_iff_eq]
  constructor
  · rintro ⟨p, hp, rfl⟩; exact ⟨p, hp, rfl⟩
  · rintro ⟨p, hp, rfl⟩; exact ⟨p, hp, rfl⟩

theorem keys_update (obj : JsObject β) (key : String) (f : β → β) :
    (obj.update key f).map Prod.fst = obj.map Prod.fst := by
  induction obj with
  | nil => rfl
  | cons entry rest ih =>
    simp only [update, List.map_cons] at ih ⊢
    rw [ih]
    by_cases h : entry.1 = key <;> simp [h]

theorem update_of_not_mem (obj : JsObject β) (key : String) (f : β → β)
    (h : key ∉ obj.map Prod.fst) : obj.update key f = obj := by
  induction obj with
  | nil => rfl
  | cons entry rest ih =>
    simp only [List.map_cons, List.mem_cons, not_or] at h
    simp only [update, List.map_cons] at ih ⊢
    rw [ih h.2, if_neg (fun heq => h.1 heq.symm)]

/-- Updating the entry of `key` by `f` adds `d` to a sum over the entries when
`f` adds `d` to each summand. -/
theorem sum_update {M : Type} [AddCommMonoid M] (obj : JsObject β) (key : String)
    (f : β → β) (g : β → M) (d : M)
    (hnodup : (obj.map Prod.fst).Nodup) (hkey : key ∈ obj.map Prod.fst)
    (hg : ∀ entry ∈ obj, g (f entry.2) = g entry.2 + d) :
    ((obj.update key f).map fun entry => g entry.2).sum
      = (obj.map fun entry => g entry.2).sum + d := by
  induction obj with
  | nil => simp at hkey
  | cons entry rest ih =>
    simp only [List.map_cons, List.nodup_cons] at hnodup
    have hrest : ((update rest key f).map fun entry => g entry.2)
        = (List.map (fun e => if e.1 = key then (e.1, f e.2) else e) rest).map
            fun entry => g entry.2 := rfl
    by_cases h : entry.1 = key
    · have hnot : key ∉ rest.map Prod.fst := h ▸ hnodup.1
      have hsame := update_of_not_mem rest key f hnot
      simp only [update] at hsame
      simp only [update, List.map_cons, if_pos h, List.sum_cons, hsame]
      rw [hg entry (List.mem_cons_self _ _)]
      abel
    · have hmem : key ∈ rest.map Prod.fst := by
        simp only [List.map_cons, List.mem_cons] at hkey
        rcases hkey with hk | hk
        · exact absurd hk.symm h
        · exact hk
      have := ih hnodup.2 hmem fun e he => hg e (List.mem_cons_of_mem _ he)
      simp only [update] at this
      simp only [update, List.map_cons, if_neg h, List.sum_cons, this]
      abel

/-- The effect of `if (!obj[key]) obj[key] = zero;` followed by an update of
`obj[key]`, for a key that `Object.prototype` does not have: the keys stay
distinct, at most `key` is new, and a sum over the entries grows by `d`. -/
theorem bump {M : Type} [AddCommMonoid M] (obj : JsObject β) (key : String)
    (zero : β) (f : β → β) (g : β → M) (d : M)
    (hproto : key ∉ objectPrototypeKeys)
    (hnodup : (obj.map Prod.fst).Nodup)
    (hg : ∀ entry ∈ obj, g (f entry.2) = g entry.2 + d) (hzero : g (f zero) = d) :
    (((if !obj.truthyAt key then obj.define key zero else obj).update key f).map
        Prod.fst).Nodup
    ∧ (∀ k ∈ ((if !obj.truthyAt key then obj.define key zero else obj).update key f).map
        Prod.fst, k = key ∨ k ∈ obj.map Prod.fst)
    ∧ (((if !obj.truthyAt key then obj.define key zero else obj).update key f).map
        fun entry => g entry.2).sum = (obj.map fun entry => g entry.2).sum + d := by
  by_cases hmem : key ∈ obj.map Prod.fst
  · have htruthy : obj.truthyAt key = true := by
      simp [truthyAt, (lookup_isSome_iff_mem_keys obj key).mpr hmem]
    simp only [htruthy, Bool.not_true, Bool.false_eq_true, if_false, keys_update]
    exact ⟨hnodup, fun k hk => Or.inr hk, sum_update obj key f g d hnodup hmem hg⟩
  · have hnone : (obj.lookup key).isSome = false := by
      rw [← Bool.not_eq_true, lookup_isSome_iff_mem_keys]; exact hmem
    have htruthy : obj.truthyAt key = false := by
      simp [truthyAt, hnone, hproto]
    have hupdate : (obj.define key zero).update key f = obj ++ [(key, f zero)] := by
      have hsame := update_of_not_mem obj key f hmem
      simp only [update] at hsame
      simp [define, update, hsame]
    simp only [htruthy, Bool.not_false, if_true, hupdate]
    refine ⟨?_, ?_, ?_⟩
    · rw [List.map_append, List.nodup_append]
      refine ⟨hnodup, by simp, ?_⟩
      intro a ha hb
      simp only [List.map_cons, List.map_nil, List.mem_singleton] at hb
      exact hmem (hb ▸ ha)
    · intro k hk
      simp only [List.map_append, List.map_cons, List.map_nil, List.mem_append,
        List.mem_singleton] at hk
      rcases hk with hk | hk
      · exact Or.inr hk
      · exact Or.inl hk
    · simp [hzero]

/-- The call `Object.entries` lists the own entries, each once. -/
theorem objectEntries_perm (obj : JsObject β) : (objectEntries obj).Perm obj := by
  unfold objectEntries
  have hmap : ∀ l : JsObject β,
      (l.filterMap fun entry => (arrayIndex entry.1).map fun n => (n, entry)).map
          (fun e => e.2)
        = l.filter fun entry => (arrayIndex entry.1).isSome := by
    intro l
    induction l with
    | nil => rfl
    | cons entry rest ih =>
      cases h : arrayIndex entry.1 with
      | none => simp [List.filterMap_cons, List.filter_cons, h, ih]
      | some n => simp [List.filterMap_cons, List.filter_cons, h, ih]
  have hsorted := (List.perm_insertionSort (fun a b : Nat × String × β => a.1 ≤ b.1)
    (obj.filterMap fun entry => (arrayIndex entry.1).map fun n => (n, entry))).map
      (fun e => e.2)
  rw [hmap] at hsorted
  have hsplit := List.filter_append_perm (fun entry : String × β => (arrayIndex entry.1).isSome) obj
  refine (List.Perm.append hsorted ?_).trans hsplit
  have : (fun entry : String × β => (arrayIndex entry.1).isNone)
      = fun entry => !(arrayIndex entry.1).isSome := by
    funext entry; cases arrayIndex entry.1 <;> rfl
  rw [this]

end JsObject

/-! ## salesSummary on ledgers without inherited keys -/

namespace JsObject

variable {β : Type}

/-- A property of the values that the update keeps and the fresh entry has
holds for every value after `if (!obj[key]) obj[key] = zero;` and the
update. -/
theorem forall_bump (obj : JsObject β) (key : String) (zero : β) (f : β → β)
    (P : β → Prop) (hobj : ∀ entry ∈ obj, P entry.2) (hf : ∀ v, P v → P (f v))
    (hzero : P zero) :
    ∀ entry ∈ (if !obj.truthyAt key then obj.define key zero else obj).update key f,
      P entry.2 := by
  have hdefine : ∀ entry ∈ (if !obj.truthyAt key then obj.define key zero else obj),
      P entry.2 := by
    intro entry hentry
    split at hentry
    · simp only [define, List.mem_append, List.mem_singleton] at hentry
      rcases hentry with h | h
      · exact hobj entry h
      · rw [h]; exact hzero
    · exact hobj entry hentry
  intro entry hentry
  simp only [update, List.mem_map] at hentry
  obtain ⟨old, hold, rfl⟩ := hentry
  split
  · exact hf _ (hdefine old hold)
  · exact hdefine old hold

end JsObject

namespace Blockchain

theorem foldl_blocks_eq_foldl_sales {α : Type} (step : α → Sale → α)
    (blocks : List Block) :
    ∀ acc : α,
      blocks.foldl (fun acc block => block.sales.foldl step acc) acc
        = (blocks.map Block.sales).flatten.foldl step acc := by
  induction blocks with
  | nil => intro acc; rfl
  | cons block rest ih =>
    intro acc
    simp only [List.foldl_cons, List.map_cons, List.flatten_cons, List.foldl_append, ih]

/-- The method `salesSummary()` runs its loop body over `getAllSales()`. -/
theorem salesSummary_eq_foldl (js : Builtins) (self : Blockchain) :
    (self.salesSummary js).1
      = self.getAllSales.1.foldl (salesSummaryStep js)
          { summaryPerSeller := []
            totalCocoa := JsVal.num (JsNum.fin 0)
            totalRevenue := JsVal.num (JsNum.fin 0) } := by
  rw [getAllSales_eq_flatten]
  exact foldl_blocks_eq_foldl_sales (salesSummaryStep js) self.chain _

theorem tallied_step (js : Builtins) (acc : Summary) (count : Nat) (sale : Sale)
    (hacc : Tallied acc count) (hnum : sale.Numeric)
    (hkey : sale.sellerId.toJsString js ∉ objectPrototypeKeys) :
    Tallied (salesSummaryStep js acc sale) (count + 1) := by
  obtain ⟨q, p, hq, hp⟩ := hnum
  obtain ⟨hnodup, hentries, hcocoa, hrevenue, hcount⟩ := hacc
  have hadd : ∀ v : JsVal, v = JsVal.num (JsNum.fin v.toRat) →
      ∀ r : ℚ, v.add js (JsVal.num (JsNum.fin r)) = JsVal.num (JsNum.fin (v.toRat + r)) := by
    intro v hv r
    rw [hv]; rfl
  have hfin : ∀ (v : JsVal) (r : ℚ), v = JsVal.num (JsNum.fin r) →
      v = JsVal.num (JsNum.fin v.toRat) := by
    intro v r hv
    rw [hv]; rfl
  have hmul : sale.price.mul js sale.quantityKg = JsVal.num (JsNum.fin (p * q)) := by
    rw [hq, hp]; rfl
  have bumpOf := fun {M : Type} [AddCommMonoid M] (g : SellerSummary → M) (d : M) =>
    JsObject.bump acc.summaryPerSeller (sale.sellerId.toJsString js)
      { sales := 0, quantity := JsVal.num (JsNum.fin 0), revenue := JsVal.num (JsNum.fin 0) }
      (fun entry => { sales := entry.sales + 1
                      quantity := entry.quantity.add js sale.quantityKg
                      revenue := entry.revenue.add js (sale.price.mul js sale.quantityKg) })
      g d hkey hnodup
  have hQ := bumpOf (fun entry => entry.quantity.toRat) q
    (fun entry hentry => by
      show (entry.2.quantity.add js sale.quantityKg).toRat = _
      rw [hq, hadd _ (hentries entry hentry).1]; rfl)
    (by show ((JsVal.num (JsNum.fin 0)).add js sale.quantityKg).toRat = q
        rw [hq]; show (0 : ℚ) + q = q; ring)
  have hR := bumpOf (fun entry => entry.revenue.toRat) (p * q)
    (fun entry hentry => by
      show (entry.2.revenue.add js (sale.price.mul js sale.quantityKg)).toRat = _
      rw [hmul, hadd _ (hentries entry hentry).2]; rfl)
    (by show ((JsVal.num (JsNum.fin 0)).add js (sale.price.mul js sale.quantityKg)).toRat
          = p * q
        rw [hmul]; show (0 : ℚ) + p * q = p * q; ring)
  have hS := bumpOf (fun entry => entry.sales) 1 (fun _ _ => rfl) (by simp)
  have hnumeric := JsObject.forall_bump acc.summaryPerSeller
    (sale.sellerId.toJsString js)
    { sales := 0, quantity := JsVal.num (JsNum.fin 0), revenue := JsVal.num (JsNum.fin 0) }
    (fun entry => { sales := entry.sales + 1
                    quantity := entry.quantity.add js sale.quantityKg
                    revenue := entry.revenue.add js (sale.price.mul js sale.quantityKg) })
    (fun v => v.quantity = JsVal.num (JsNum.fin v.quantity.toRat)
      ∧ v.revenue = JsVal.num (JsNum.fin v.revenue.toRat))
    hentries
    (fun v hv =>
      ⟨hfin (v.quantity.add js sale.quantityKg) _ (by rw [hq]; exact hadd _ hv.1 q),
        hfin (v.revenue.add js (sale.price.mul js sale.quantityKg)) _
          (by rw [hmul]; exact hadd _ hv.2 (p * q))⟩)
    ⟨rfl, rfl⟩
  refine ⟨hQ.1, hnumeric, ?_, ?_, ?_⟩
  · show acc.totalCocoa.add js sale.quantityKg = _
    rw [hq, hadd _ (by rw [hcocoa]; rfl)]
    have := hQ.2.2
    simp only [salesSummaryStep] at this ⊢
    rw [this, hcocoa]; rfl
  · show acc.totalRevenue.add js (sale.price.mul js sale.quantityKg) = _
    rw [hmul, hadd _ (by rw [hrevenue]; rfl)]
    have := hR.2.2
    simp only [salesSummaryStep] at this ⊢
    rw [this, hrevenue]; rfl
  · have := hS.2.2
    simp only [salesSummaryStep] at this ⊢
    rw [this, hcount]

theorem tallied_foldl (js : Builtins) (sales : List Sale)
    (hnum : ∀ sale ∈ sales, sale.Numeric)
    (hkeys : ∀ sale ∈ sales, sale.sellerId.toJsString js ∉ objectPrototypeKeys) :
    ∀ (acc : Summary) (count : Nat), Tallied acc count →
      Tallied (sales.foldl (salesSummaryStep js) acc) (count + sales.length) := by
  induction sales with
  | nil => intro acc count h; exact h
  | cons sale rest ih =>
    intro acc count h
    have hstep := tallied_step js acc count sale h (hnum sale (List.mem_cons_self _ _))
      (hkeys sale (List.mem_cons_self _ _))
    have := ih (fun s hs => hnum s (List.mem_cons_of_mem _ hs))
      (fun s hs => hkeys s (List.mem_cons_of_mem _ hs)) _ _ hstep
    simp only [List.foldl_cons, List.length_cons]
    rw [show count + (rest.length + 1) = count + 1 + rest.length by omega]
    exact this

theorem foldl_add_numeric (js : Builtins) (pick : SellerSummary → JsVal)
    (entries : JsObject SellerSummary)
    (hentries : ∀ entry ∈ entries,
      pick entry.2 = JsVal.num (JsNum.fin (pick entry.2).toRat)) :
    ∀ start : ℚ,
      entries.foldl (fun total entry => total.add js (pick entry.2))
          (JsVal.num (JsNum.fin start))
        = JsVal.num (JsNum.fin
            (start + (entries.map fun entry => (pick entry.2).toRat).sum)) := by
  induction entries with
  | nil => intro start; simp
  | cons entry rest ih =>
    intro start
    simp only [List.foldl_cons, List.map_cons, List.sum_cons]
    rw [hentries entry (List.mem_cons_self _ _)]
    show List.foldl _ (JsVal.num (JsNum.fin (start + (pick entry.2).toRat))) rest = _
    rw [ih (fun e he => hentries e (List.mem_cons_of_mem _ he))]
    simp only [JsVal.toRat, add_assoc]

/-- On a ledger whose sales have finite numeric `quantityKg` and `price` and
seller ids that do not name a property of `Object.prototype`,
`salesSummary()` returns totals equal to the sums over the entries of
`summaryPerSeller`, and the sales counts add up to the number of sales. -/
theorem salesSummary_totals_of_own_keys (js : Builtins) (self : Blockchain)
    (hnum : ∀ sale ∈ self.getAllSales.1, sale.Numeric)
    (hkeys : ∀ sale ∈ self.getAllSales.1,
      sale.sellerId.toJsString js ∉ objectPrototypeKeys) :
    (self.salesSummary js).1.totalCocoa
        = sumQuantity js (self.salesSummary js).1.summaryPerSeller
    ∧ (self.salesSummary js).1.totalRevenue
        = sumRevenue js (self.salesSummary js).1.summaryPerSeller
    ∧ sumSales (self.salesSummary js).1.summaryPerSeller
        = self.getAllSales.1.length := by
  have hstart : Tallied
      { summaryPerSeller := []
        totalCocoa := JsVal.num (JsNum.fin 0)
        totalRevenue := JsVal.num (JsNum.fin 0) } 0 :=
    ⟨by simp, by simp, by simp, by simp, by simp⟩
  obtain ⟨_, hentries, hcocoa, hrevenue, hcount⟩ :=
    tallied_foldl js self.getAllSales.1 hnum hkeys _ 0 hstart
  rw [← salesSummary_eq_foldl] at hentries hcocoa hrevenue hcount
  refine ⟨?_, ?_, by simpa [sumSales] using hcount⟩
  · rw [hcocoa, sumQuantity,
      foldl_add_numeric js (fun v => v.quantity) _ (fun e he => (hentries e he).1) 0]
    simp
  · rw [hrevenue, sumRevenue,
      foldl_add_numeric js (fun v => v.revenue) _ (fun e he => (hentries e he).2) 0]
    simp

end Blockchain

/-- The summary of the ledger with one sale by an ordinary seller: one entry,
and totals that agree with it. -/
theorem salesSummary_of_ordinary_seller (js : Builtins) :
    ((ledgerWithSaleOf js (JsVal.str "SEL1a2b3c4")).salesSummary js).1
      = { summaryPerSeller :=
            [("SEL1a2b3c4",
              { sales := 1, quantity := JsVal.num (JsNum.fin 5)
                revenue := JsVal.num (JsNum.fin 10) })]
          totalCocoa := JsVal.num (JsNum.fin 5)
          totalRevenue := JsVal.num (JsNum.fin 10) } := by
  have hledger : ledgerWithSaleOf js (JsVal.str "SEL1a2b3c4")
      = { chain :=
            [{ index := 0, timestamp := 0, sales := []
               nonce := JsVal.num (JsNum.fin 100), hash := JsVal.str "0"
               previousBlockHash := JsVal.str "0" },
             { index := 1, timestamp := 2
               sales :=
                 [{ sellerId := JsVal.str "SEL1a2b3c4", buyerName := JsVal.str "Bob"
                    quantityKg := JsVal.num (JsNum.fin 5)
                    price := JsVal.num (JsNum.fin 2), timestamp := 1 }]
               nonce := JsVal.num (JsNum.fin 7), hash := JsVal.str "00ab"
               previousBlockHash := JsVal.str "0" }]
          pendingSales := []
          currentNodeUrl := JsVal.str "http://localhost:3001"
          networkNodes := [] } := rfl
  rw [hledger]
  simp [Blockchain.salesSummary, Blockchain.salesSummaryStep, JsVal.toJsString,
    JsObject.truthyAt, JsObject.update, JsObject.define, objectPrototypeKeys,
    List.lookup, JsVal.add, JsVal.mul, JsNum.add, JsNum.mul, JsVal.toNumber]
  norm_num

/-! ## The per-seller count -/

namespace JsObject

variable {β : Type}

theorem lookup_update (obj : JsObject β) (key : String) (f : β → β) (k : String) :
    (obj.update key f).lookup k
      = if k = key then (obj.lookup k).map f else obj.lookup k := by
  induction obj with
  | nil => simp [update]
  | cons entry rest ih =>
    obtain ⟨name, value⟩ := entry
    have hcons : update ((name, value) :: rest) key f
        = (if name = key then (name, f value) else (name, value))
            :: update rest key f := rfl
    rw [hcons]
    by_cases hname : name = key <;> by_cases hk : k = name
    · subst hname; subst hk
      simp [List.lookup_cons]
    · subst hname
      have hbeq : (k == name) = false := by simpa using hk
      simp only [if_true, List.lookup_cons, hbeq]
      exact ih
    · subst hk
      simp [List.lookup_cons, hname]
    · have hbeq : (k == name) = false := by simpa using hk
      simp only [if_neg hname, List.lookup_cons, hbeq]
      exact ih

theorem lookup_define (obj : JsObject β) (key : String) (zero : β) (k : String) :
    (obj.define key zero).lookup k
      = match obj.lookup k with
        | some value => some value
        | none => if k = key then some zero else none := by
  induction obj with
  | nil =>
    by_cases hk : k = key
    · subst hk; simp [define, List.lookup]
    · have hbeq : (k == key) = false := by simpa using hk
      simp [define, List.lookup, hbeq, hk]
  | cons entry rest ih =>
    obtain ⟨name, value⟩ := entry
    simp only [define, List.cons_append] at ih ⊢
    by_cases hk : k = name
    · subst hk; simp [List.lookup]
    · have hbeq : (k == name) = false := by simpa using hk
      simp only [List.lookup, hbeq]
      exact ih

/-- What `obj[k]` holds after `if (!obj[key]) obj[key] = zero;` and the
update of `obj[key]`, for a key `k` that `Object.prototype` does not have. -/
theorem lookup_bump (obj : JsObject β) (key : String) (zero : β) (f : β → β)
    (k : String) (hproto : k ∉ objectPrototypeKeys) :
    ((if !obj.truthyAt key then obj.define key zero else obj).update key f).lookup k
      = if k = key then some (f ((obj.lookup k).getD zero)) else obj.lookup k := by
  rw [lookup_update]
  by_cases hk : k = key
  · subst hk
    simp only [if_true]
    cases hlook : obj.lookup k with
    | none =>
      have : obj.truthyAt k = false := by simp [truthyAt, hlook, hproto]
      simp [this, lookup_define, hlook]
    | some value =>
      have : obj.truthyAt k = true := by simp [truthyAt, hlook]
      simp [this, hlook]
  · simp only [if_neg hk]
    split
    · rw [lookup_define]
      cases obj.lookup k <;> simp [hk]
    · rfl

end JsObject

namespace Blockchain

/-- After the loop of `salesSummary`, the entry of a key that
`Object.prototype` does not have counts the sales filed under that key, and
there is none when no sale is filed under it. -/
theorem lookup_sales_foldl (js : Builtins) (key : String)
    (hproto : key ∉ objectPrototypeKeys) (sales : List Sale) :
    ∀ (acc : Summary) (count : Nat),
      (acc.summaryPerSeller.lookup key).map (fun entry => entry.sales)
          = (if count = 0 then none else some count) →
      ((sales.foldl (salesSummaryStep js) acc).summaryPerSeller.lookup key).map
          (fun entry => entry.sales)
        = (if count + (sales.filter fun sale => sale.sellerId.toJsString js = key).length = 0
            then none
            else some (count
              + (sales.filter fun sale => sale.sellerId.toJsString js = key).length)) := by
  induction sales with
  | nil => intro acc count h; simpa using h
  | cons sale rest ih =>
    intro acc count h
    simp only [List.foldl_cons]
    have hstep : ((salesSummaryStep js acc sale).summaryPerSeller.lookup key).map
        (fun entry => entry.sales)
        = (if count + (if sale.sellerId.toJsString js = key then 1 else 0) = 0 then none
            else some (count + (if sale.sellerId.toJsString js = key then 1 else 0))) := by
      simp only [salesSummaryStep]
      rw [JsObject.lookup_bump _ _ _ _ _ hproto]
      by_cases hk : sale.sellerId.toJsString js = key
      · rw [if_pos hk.symm, if_pos hk]
        cases hlook : acc.summaryPerSeller.lookup key with
        | none =>
          rw [hlook] at h
          have hzero : count = 0 := by
            by_contra hne
            rw [if_neg hne] at h
            simp at h
          simp [hzero]
        | some entry =>
          rw [hlook] at h
          by_cases hzero : count = 0
          · rw [if_pos hzero] at h; simp at h
          · rw [if_neg hzero] at h
            simp only [Option.map_some', Option.some.injEq] at h
            simp [h]
      · rw [if_neg (fun heq => hk heq.symm), if_neg hk]
        simpa using h
    have := ih (salesSummaryStep js acc sale) _ hstep
    rw [this]
    by_cases hk : sale.sellerId.toJsString js = key
    · simp [List.filter_cons, hk, Nat.add_assoc, Nat.add_comm 1]
    · simp [List.filter_cons, hk]

theorem strictEq_str (value : JsVal) (s : String) :
    value.strictEq (JsVal.str s) = true ↔ value = JsVal.str s := by
  cases value with
  | num n => cases n <;> simp [JsVal.strictEq]
  | _ => simp [JsVal.strictEq]

/-- For a string seller id that occurs in the chain and does not name a
property of `Object.prototype`, and under whose key no sale with another
seller id is filed, `summaryPerSeller[sellerId].sales` is the length of
`getSellerSales(sellerId)`. -/
theorem summary_count_of_own_key (js : Builtins) (self : Blockchain)
    (sellerId : String) (hproto : sellerId ∉ objectPrototypeKeys)
    (hfiled : ∀ sale ∈ self.getAllSales.1,
      sale.sellerId.toJsString js = sellerId → sale.sellerId = JsVal.str sellerId)
    (hoccurs : ∃ sale ∈ self.getAllSales.1, sale.sellerId = JsVal.str sellerId) :
    ((self.salesSummary js).1.summaryPerSeller.lookup sellerId).map
        (fun entry => entry.sales)
      = some (self.getSellerSales (JsVal.str sellerId)).1.length := by
  have hcount := lookup_sales_foldl js sellerId hproto self.getAllSales.1
    { summaryPerSeller := []
      totalCocoa := JsVal.num (JsNum.fin 0)
      totalRevenue := JsVal.num (JsNum.fin 0) } 0 (by simp)
  rw [← salesSummary_eq_foldl] at hcount
  have hsame : self.getAllSales.1.filter (fun sale => sale.sellerId.toJsString js = sellerId)
      = self.getAllSales.1.filter fun sale => sale.sellerId.strictEq (JsVal.str sellerId) := by
    apply List.filter_congr
    intro sale hsale
    by_cases hk : sale.sellerId.toJsString js = sellerId
    · have := (strictEq_str sale.sellerId sellerId).mpr (hfiled sale hsale hk)
      simp [hk, this]
    · have hne : sale.sellerId ≠ JsVal.str sellerId := by
        intro heq; apply hk; rw [heq]; rfl
      have : sale.sellerId.strictEq (JsVal.str sellerId) = false := by
        rw [← Bool.not_eq_true, strictEq_str]; exact hne
      simp [hk, this]
  rw [hsame, ← getSellerSales_eq_filter] at hcount
  have hpos : (self.getSellerSales (JsVal.str sellerId)).1.length ≠ 0 := by
    obtain ⟨sale, hsale, hid⟩ := hoccurs
    rw [getSellerSales_eq_filter]
    intro hlen
    have hnil := List.length_eq_zero.mp hlen
    have hmem : sale ∈ self.getAllSales.1.filter
        fun sale => sale.sellerId.strictEq (JsVal.str sellerId) :=
      List.mem_filter.mpr ⟨hsale, (strictEq_str _ _).mpr hid⟩
    rw [hnil] at hmem
    simp at hmem
  simpa [hpos] using hcount

end Blockchain

/-! ## createSale -/

/-- The method `createSale` returns `null` exactly when `sellerId` or
`buyerName` is falsy or `quantityKg` or `price` compares `<= 0`; a value that
converts to `NaN`, such as `undefined`, does not compare `<= 0`. -/
theorem Blockchain.createSale_null_iff (js : Builtins) (self : Blockchain)
    (sellerId buyerName quantityKg price : JsVal) (now : Nat) :
    (self.createSale js sellerId buyerName quantityKg price now).1 = none
      ↔ (sellerId.truthy = false ∨ buyerName.truthy = false
          ∨ quantityKg.leZero js = true ∨ price.leZero js = true) := by
  unfold Blockchain.createSale
  cases sellerId.truthy <;> cases buyerName.truthy <;>
    cases quantityKg.leZero js <;> cases price.leZero js <;> simp

/-! ## When the scan ends -/

namespace Blockchain

theorem proofOfWorkLoop_le_maxNonce (sha256 : String → String)
    (prevHash blockData : String) (self : Blockchain) :
    ∀ (fuel start n : Nat) (after : Blockchain), start ≤ maxNonce →
      proofOfWorkLoop sha256 prevHash blockData fuel start self = some (n, after) →
      n ≤ maxNonce := by
  intro fuel
  induction fuel with
  | zero => intro start n after _ h; simp [proofOfWorkLoop] at h
  | succ fuel ih =>
    intro start n after hstart h
    unfold proofOfWorkLoop at h
    simp only [hashBlock_state] at h
    by_cases hit : startsWith00 (hashBlock self sha256 prevHash blockData start).1 = true
    · rw [if_pos hit] at h
      obtain ⟨rfl, _⟩ : start = n ∧ self = after := by simpa using h
      exact hstart
    · rw [if_neg hit] at h
      refine ih (increment start) n after ?_ h
      unfold increment
      split <;> omega

/-- The scan ends, given enough steps, exactly when some nonce of at most
`2^53` has a hash with the target: whether `proofOfWork` terminates is a
property of the hash function. -/
theorem proofOfWork_returns_iff (self : Blockchain) (sha256 : String → String)
    (prevHash blockData : String) :
    (∃ fuel n after, self.proofOfWork sha256 prevHash blockData fuel = some (n, after))
      ↔ ∃ n, n ≤ maxNonce
          ∧ startsWith00 (self.hashBlock sha256 prevHash blockData n).1 = true := by
  constructor
  · rintro ⟨fuel, n, after, h⟩
    exact ⟨n,
      proofOfWorkLoop_le_maxNonce sha256 prevHash blockData self fuel 0 n after
        (Nat.zero_le _) h,
      (proofOfWorkLoop_sound sha256 prevHash blockData self fuel 0 n after h).2.2.1⟩
  · intro hex
    have hsome : ∃ n, startsWith00 (self.hashBlock sha256 prevHash blockData n).1 = true :=
      hex.imp fun _ h => h.2
    obtain ⟨n, hmax, _⟩ := hex
    have hleast := Nat.find_spec hsome
    have hle : Nat.find hsome ≤ maxNonce :=
      (Nat.find_min' hsome (by assumption)).trans hmax
    refine ⟨Nat.find hsome + 1, Nat.find hsome, self, ?_⟩
    exact proofOfWorkLoop_complete sha256 prevHash blockData self _ hle hleast
      (Nat.find hsome + 1) 0 (Nat.zero_le _) (by omega) fun m _ hm => by
        have := Nat.find_min hsome hm
        simpa using this

/-- Over a hash function that never gives the target, `proofOfWork` returns
for no number of steps. -/
theorem proofOfWork_none_of_no_target (self : Blockchain)
    (sha256 : String → String) (prevHash blockData : String)
    (hnever : ∀ n, startsWith00 (self.hashBlock sha256 prevHash blockData n).1 = false)
    (fuel : Nat) :
    self.proofOfWork sha256 prevHash blockData fuel = none := by
  cases h : self.proofOfWork sha256 prevHash blockData fuel with
  | none => rfl
  | some result =>
    obtain ⟨n, after⟩ := result
    have := (proofOfWorkLoop_sound sha256 prevHash blockData self fuel 0 n after h).2.2.1
    rw [hnever n] at this
    exact absurd this (by decide)

end Blockchain

/-! ## Validation in POST /sale -/

/-- For a body whose four fields are present and truthy, the handler is
`postSaleChecked`; for any other body it answers 400 without a call. -/
theorem postSale_of_fields (js : Builtins) (contract : WriteContract)
    (body : SaleBody) :
    (∀ sellerId buyerName quantityKg price,
      body.sellerId = some sellerId → body.buyerName = some buyerName →
      body.quantityKg = some quantityKg → body.price = some price →
      sellerId.truthy = true → buyerName.truthy = true →
      quantityKg.truthy = true → price.truthy = true →
      postSale js (some contract) body
        = postSaleChecked js contract sellerId buyerName quantityKg price)
    ∧ ((body.sellerId = none ∨ body.buyerName = none ∨ body.quantityKg = none
        ∨ body.price = none
        ∨ (∃ v, body.sellerId = some v ∧ v.truthy = false)
        ∨ (∃ v, body.buyerName = some v ∧ v.truthy = false)
        ∨ (∃ v, body.quantityKg = some v ∧ v.truthy = false)
        ∨ (∃ v, body.price = some v ∧ v.truthy = false)) →
      (postSale js (some contract) body).status = 400
        ∧ (postSale js (some contract) body).calls = []) := by
  obtain ⟨sellerId, buyerName, quantityKg, price⟩ := body
  constructor
  · intro s b q p hs hb hq hp ts tb tq tp
    simp only at hs hb hq hp
    subst hs hb hq hp
    simp [postSale, ts, tb, tq, tp]
  · intro h
    cases sellerId <;> cases buyerName <;> cases quantityKg <;> cases price <;>
      simp [postSale] at h ⊢
    rename_i s b q p
    rcases h with h | h | h | h <;> simp [h]

/-- The two numeric guards: when `quantityKg` or `price` converts to `NaN` or
compares `<= 0`, `postSaleChecked` makes no call and answers 400, or 500 when
a conversion throws. -/
theorem postSaleChecked_rejects (js : Builtins) (contract : WriteContract)
    (sellerId buyerName quantityKg price : Json)
    (h : quantityKg.isNaN js = Completion.returned true
        ∨ quantityKg.leZero js = Completion.returned true
        ∨ price.isNaN js = Completion.returned true
        ∨ price.leZero js = Completion.returned true) :
    (postSaleChecked js contract sellerId buyerName quantityKg price).calls = []
    ∧ ((postSaleChecked js contract sellerId buyerName quantityKg price).status = 400
      ∨ (postSaleChecked js contract sellerId buyerName quantityKg price).status = 500)
    ∧ ((∀ error, quantityKg.toNumber js ≠ Completion.thrown error) →
        (∀ error, price.toNumber js ≠ Completion.thrown error) →
        (postSaleChecked js contract sellerId buyerName quantityKg price).status = 400) := by
  unfold postSaleChecked
  simp only [Json.isNaN, Json.leZero] at h ⊢
  cases hq : quantityKg.toNumber js with
  | thrown error => simp [Completion.map]
  | returned q =>
    cases hp : price.toNumber js with
    | thrown error =>
      cases hqn : q.isNaN <;> cases hql : q.leZero <;> simp [Completion.map, hqn, hql]
    | returned p =>
      rw [hq, hp] at h
      cases hqn : q.isNaN <;> cases hql : q.leZero <;> cases hpn : p.isNaN <;>
        cases hpl : p.leZero <;> simp [Completion.map, hqn, hql, hpn, hpl] at h ⊢

/-- C4, amended. While the contract is initialised, a request body in which
one of `sellerId`, `buyerName`, `quantityKg`, `price` is missing, or in which
`quantityKg` or `price` converts to `NaN` (the test `isNaN`) or compares
`<= 0`, leads to no call to the external contract; the status is 400, or 500
when the conversion of `quantityKg` or `price` to a number throws. -/
theorem postSale_rejects_before_any_call (js : Builtins)
    (contract : WriteContract) (body : SaleBody)
    (h : body.sellerId = none ∨ body.buyerName = none ∨ body.quantityKg = none
        ∨ body.price = none
        ∨ (∃ quantityKg, body.quantityKg = some quantityKg
            ∧ (quantityKg.isNaN js = Completion.returned true
              ∨ quantityKg.leZero js = Completion.returned true))
        ∨ (∃ price, body.price = some price
            ∧ (price.isNaN js = Completion.returned true
              ∨ price.leZero js = Completion.returned true))) :
    (postSale js (some contract) body).calls = []
    ∧ ((postSale js (some contract) body).status = 400
      ∨ (postSale js (some contract) body).status = 500)
    ∧ ((∀ quantityKg error, body.quantityKg = some quantityKg →
          quantityKg.toNumber js ≠ Completion.thrown error) →
        (∀ price error, body.price = some price →
          price.toNumber js ≠ Completion.thrown error) →
        (postSale js (some contract) body).status = 400) := by
  have hfields := postSale_of_fields js contract body
  have missing : (body.sellerId = none ∨ body.buyerName = none
      ∨ body.quantityKg = none ∨ body.price = none
      ∨ (∃ v, body.sellerId = some v ∧ v.truthy = false)
      ∨ (∃ v, body.buyerName = some v ∧ v.truthy = false)
      ∨ (∃ v, body.quantityKg = some v ∧ v.truthy = false)
      ∨ (∃ v, body.price = some v ∧ v.truthy = false)) →
      (postSale js (some contract) body).calls = []
      ∧ ((postSale js (some contract) body).status = 400
        ∨ (postSale js (some contract) body).status = 500)
      ∧ ((∀ quantityKg error, body.quantityKg = some quantityKg →
            quantityKg.toNumber js ≠ Completion.thrown error) →
          (∀ price error, body.price = some price →
            price.toNumber js ≠ Completion.thrown error) →
          (postSale js (some contract) body).status = 400) := fun hm =>
    ⟨(hfields.2 hm).2, Or.inl (hfields.2 hm).1, fun _ _ => (hfields.2 hm).1⟩
  rcases Option.eq_none_or_eq_some body.sellerId with hs | ⟨sellerId, hs⟩
  · exact missing (Or.inl hs)
  rcases Option.eq_none_or_eq_some body.buyerName with hb | ⟨buyerName, hb⟩
  · exact missing (Or.inr (Or.inl hb))
  rcases Option.eq_none_or_eq_some body.quantityKg with hq | ⟨quantityKg, hq⟩
  · exact missing (Or.inr (Or.inr (Or.inl hq)))
  rcases Option.eq_none_or_eq_some body.price with hp | ⟨price, hp⟩
  · exact missing (Or.inr (Or.inr (Or.inr (Or.inl hp))))
  rcases Bool.eq_false_or_eq_true sellerId.truthy with ts | ts
  swap
  · exact missing (Or.inr (Or.inr (Or.inr (Or.inr (Or.inl ⟨_, hs, ts⟩)))))
  rcases Bool.eq_false_or_eq_true buyerName.truthy with tb | tb
  swap
  · exact missing (Or.inr (Or.inr (Or.inr (Or.inr (Or.inr (Or.inl ⟨_, hb, tb⟩))))))
  rcases Bool.eq_false_or_eq_true quantityKg.truthy with tq | tq
  swap
  · exact missing
      (Or.inr (Or.inr (Or.inr (Or.inr (Or.inr (Or.inr (Or.inl ⟨_, hq, tq⟩)))))))
  rcases Bool.eq_false_or_eq_true price.truthy with tp | tp
  swap
  · exact missing
      (Or.inr (Or.inr (Or.inr (Or.inr (Or.inr (Or.inr (Or.inr ⟨_, hp, tp⟩)))))))
  rw [hfields.1 sellerId buyerName quantityKg price hs hb hq hp ts tb tq tp]
  have hguard : quantityKg.isNaN js = Completion.returned true
      ∨ quantityKg.leZero js = Completion.returned true
      ∨ price.isNaN js = Completion.returned true
      ∨ price.leZero js = Completion.returned true := by
    rcases h with h | h | h | h | ⟨v, hv, h⟩ | ⟨v, hv, h⟩
    · rw [hs] at h; cases h
    · rw [hb] at h; cases h
    · rw [hq] at h; cases h
    · rw [hp] at h; cases h
    · rw [hq] at hv; cases hv
      rcases h with h | h
      · exact Or.inl h
      · exact Or.inr (Or.inl h)
    · rw [hp] at hv; cases hv
      rcases h with h | h
      · exact Or.inr (Or.inr (Or.inl h))
      · exact Or.inr (Or.inr (Or.inr h))
  obtain ⟨hcalls, hstatus, hprim⟩ :=
    postSaleChecked_rejects js contract sellerId buyerName quantityKg price hguard
  exact ⟨hcalls, hstatus, fun hqn hpn =>
    hprim (fun error => hqn quantityKg error hq) (fun error => hpn price error hp)⟩

/-- C4, amended, at the body with `quantityKg: -3`: it compares `<= 0`, no
conversion throws, and the answer is 400 with no call made. -/
theorem postSale_rejects_before_any_call_witness :
    (Json.num (JsNum.fin (-3))).leZero sampleBuiltins = Completion.returned true
    ∧ (postSale sampleBuiltins (some sampleContract) bodyWithNegativeQuantity).calls
        = []
    ∧ (postSale sampleBuiltins (some sampleContract) bodyWithNegativeQuantity).status
        = 400 :=
  have hle : (Json.num (JsNum.fin (-3))).leZero sampleBuiltins
      = Completion.returned true := rfl
  have hrejected := postSale_rejects_before_any_call sampleBuiltins sampleContract
    bodyWithNegativeQuantity
    (Or.inr (Or.inr (Or.inr (Or.inr (Or.inl ⟨_, rfl, Or.inr hle⟩)))))
  ⟨hle, hrejected.1, hrejected.2.2
    (fun quantityKg error hq => by
      cases (Option.some.inj hq); intro h; cases h)
    (fun price error hp => by
      cases (Option.some.inj hp); intro h; cases h)⟩

/-- C4 as stated fails at two bodies. With `quantityKg: true` the value is
not a number, yet it passes the validation (`!true` is false, `isNaN(true)`
is false, `true <= 0` is false): the handler calls `isSellerRegistered` and
answers 500 when `toBigInt(true)` throws. With
`quantityKg: { valueOf: 1, toString: 1 }` and `price: -1` the price compares
`<= 0`, yet `isNaN(quantityKg)` throws and the answer is 500, not 400. -/
theorem postSale_rejection_is_not_always_400 :
    (Json.bool true).isNumber = false
    ∧ (postSale sampleBuiltins (some sampleContract) bodyWithBooleanQuantity).status
        = 500
    ∧ (postSale sampleBuiltins (some sampleContract) bodyWithBooleanQuantity).calls
        = [ContractCall.isSellerRegistered (Json.str "SEL1a2b3c4")]
    ∧ (Json.num (JsNum.fin (-1))).leZero sampleBuiltins = Completion.returned true
    ∧ (postSale sampleBuiltins (some sampleContract) bodyWithObjectQuantity).status
        = 500
    ∧ (postSale sampleBuiltins (some sampleContract) bodyWithObjectQuantity).calls
        = [] :=
  ⟨rfl, rfl, rfl, rfl, rfl, rfl⟩

/-! ## GET /sales-summary -/

namespace JsObject

variable {β : Type}

/-- What holds of every value after `if (!obj[key]) obj[key] = zero;` and
the update, from what held before and what the update makes of it. -/
theorem forall_bump_of (obj : JsObject β) (key : String) (zero : β) (f : β → β)
    (P Q : β → Prop) (hobj : ∀ entry ∈ obj, P entry.2) (hzero : P zero)
    (hkeep : ∀ v, P v → Q v) (hf : ∀ v, P v → Q (f v)) :
    ∀ entry ∈ (if !obj.truthyAt key then obj.define key zero else obj).update key f,
      Q entry.2 := by
  have hdefine : ∀ entry ∈ (if !obj.truthyAt key then obj.define key zero else obj),
      P entry.2 := by
    intro entry hentry
    split at hentry
    · simp only [define, List.mem_append, List.mem_singleton] at hentry
      rcases hentry with h | h
      · exact hobj entry h
      · rw [h]; exact hzero
    · exact hobj entry hentry
  intro entry hentry
  simp only [update, List.mem_map] at hentry
  obtain ⟨old, hold, rfl⟩ := hentry
  split
  · exact hf _ (hdefine old hold)
  · exact hkeep _ (hdefine old hold)

end JsObject

theorem roundToDouble_of_le (n : Nat) (h : n ≤ 2 ^ 53) :
    roundToDouble n = Double.fin n := by
  unfold roundToDouble
  rw [if_pos h]

theorem le_sum_of_mem {α : Type} (f : α → Nat) (l : List α) (a : α) (h : a ∈ l) :
    f a ≤ (l.map f).sum := by
  induction l with
  | nil => simp at h
  | cons b rest ih =>
    simp only [List.map_cons, List.sum_cons]
    rcases List.mem_cons.mp h with rfl | hrest
    · omega
    · have := ih hrest; omega

/-- One pass of the loop body keeps the arithmetic exact while the totals
stay within `2^53`. -/
theorem exact_step (acc : SummaryAcc) (cocoa revenue : Nat) (sale : ContractSale)
    (hacc : acc.Exact cocoa revenue)
    (hkey : sale.sellerId ∉ objectPrototypeKeys)
    (hprice : sale.price ≤ 2 ^ 53)
    (hcocoa : cocoa + sale.quantityKg ≤ 2 ^ 53)
    (hrevenue : revenue + sale.price * sale.quantityKg ≤ 2 ^ 53) :
    (sellerStatsStep acc sale).Exact (cocoa + sale.quantityKg)
        (revenue + sale.price * sale.quantityKg)
    ∧ ∀ k ∈ (sellerStatsStep acc sale).sellerStats.map Prod.fst,
        k = sale.sellerId ∨ k ∈ acc.sellerStats.map Prod.fst := by
  obtain ⟨hnodup, hfinite, htc, htr, hsumq, hsumr⟩ := hacc
  have hq : roundToDouble sale.quantityKg = Double.fin sale.quantityKg :=
    roundToDouble_of_le _ (by omega)
  have hp : roundToDouble sale.price = Double.fin sale.price :=
    roundToDouble_of_le _ hprice
  have hpq : (roundToDouble sale.price).mul (roundToDouble sale.quantityKg)
      = Double.fin (sale.price * sale.quantityKg) := by
    rw [hq, hp]
    exact roundToDouble_of_le _ (by omega)
  have hbound : ∀ entry ∈ acc.sellerStats,
      entry.2.quantity.toNat ≤ cocoa ∧ entry.2.revenue.toNat ≤ revenue := by
    intro entry hentry
    constructor
    · rw [← hsumq]
      exact le_sum_of_mem (fun e : String × SellerStats => e.2.quantity.toNat) _ _ hentry
    · rw [← hsumr]
      exact le_sum_of_mem (fun e : String × SellerStats => e.2.revenue.toNat) _ _ hentry
  have haddq : ∀ v : SellerStats, v.Finite → v.quantity.toNat ≤ cocoa →
      v.quantity.add (roundToDouble sale.quantityKg)
        = Double.fin (v.quantity.toNat + sale.quantityKg) := by
    intro v hv hle
    have hvq := hv.1
    generalize v.quantity.toNat = n at hvq hle ⊢
    rw [hq, hvq]
    exact roundToDouble_of_le _ (by omega)
  have haddr : ∀ v : SellerStats, v.Finite → v.revenue.toNat ≤ revenue →
      v.revenue.add ((roundToDouble sale.price).mul (roundToDouble sale.quantityKg))
        = Double.fin (v.revenue.toNat + sale.price * sale.quantityKg) := by
    intro v hv hle
    have hvr := hv.2
    generalize v.revenue.toNat = n at hvr hle ⊢
    rw [hpq, hvr]
    exact roundToDouble_of_le _ (by omega)
  have hfin : ∀ (x : Double) (r : Nat), x = Double.fin r → x = Double.fin x.toNat := by
    intro x r hx
    rw [hx]; rfl
  have bumpOf := fun (g : SellerStats → Nat) (d : Nat) =>
    JsObject.bump acc.sellerStats sale.sellerId
      { sales := Double.fin 0, quantity := Double.fin 0, revenue := Double.fin 0 }
      (fun stats =>
        { sales := stats.sales.add (Double.fin 1)
          quantity := stats.quantity.add (roundToDouble sale.quantityKg)
          revenue := stats.revenue.add
            ((roundToDouble sale.price).mul (roundToDouble sale.quantityKg)) })
      g d hkey hnodup
  have hQ := bumpOf (fun stats => stats.quantity.toNat) sale.quantityKg
    (fun entry hentry => by
      show (entry.2.quantity.add (roundToDouble sale.quantityKg)).toNat = _
      rw [haddq _ (hfinite entry hentry) (hbound entry hentry).1]; rfl)
    (by show ((Double.fin 0).add (roundToDouble sale.quantityKg)).toNat = _
        rw [hq]
        show (roundToDouble (0 + sale.quantityKg)).toNat = _
        rw [roundToDouble_of_le _ (by omega)]
        simp [Double.toNat])
  have hR := bumpOf (fun stats => stats.revenue.toNat) (sale.price * sale.quantityKg)
    (fun entry hentry => by
      show (entry.2.revenue.add
        ((roundToDouble sale.price).mul (roundToDouble sale.quantityKg))).toNat = _
      rw [haddr _ (hfinite entry hentry) (hbound entry hentry).2]; rfl)
    (by show ((Double.fin 0).add
          ((roundToDouble sale.price).mul (roundToDouble sale.quantityKg))).toNat = _
        rw [hpq]
        show (roundToDouble (0 + sale.price * sale.quantityKg)).toNat = _
        rw [roundToDouble_of_le _ (by omega)]
        simp [Double.toNat])
  have hF := JsObject.forall_bump_of acc.sellerStats sale.sellerId
    { sales := Double.fin 0, quantity := Double.fin 0, revenue := Double.fin 0 }
    (fun stats =>
      { sales := stats.sales.add (Double.fin 1)
        quantity := stats.quantity.add (roundToDouble sale.quantityKg)
        revenue := stats.revenue.add
          ((roundToDouble sale.price).mul (roundToDouble sale.quantityKg)) })
    (fun v => v.Finite ∧ v.quantity.toNat ≤ cocoa ∧ v.revenue.toNat ≤ revenue)
    SellerStats.Finite
    (fun entry hentry => ⟨hfinite entry hentry, hbound entry hentry⟩)
    ⟨⟨rfl, rfl⟩, Nat.zero_le _, Nat.zero_le _⟩
    (fun v hv => hv.1)
    (fun v hv => ⟨hfin _ _ (haddq v hv.1 hv.2.1), hfin _ _ (haddr v hv.1 hv.2.2)⟩)
  refine ⟨⟨hQ.1, hF, ?_, ?_, ?_, ?_⟩, hQ.2.1⟩
  · show acc.totalCocoa.add (roundToDouble sale.quantityKg) = _
    rw [htc, hq]
    exact roundToDouble_of_le _ hcocoa
  · show acc.totalRevenue.add
      ((roundToDouble sale.price).mul (roundToDouble sale.quantityKg)) = _
    rw [htr, hpq]
    exact roundToDouble_of_le _ hrevenue
  · have := hQ.2.2
    simp only [sellerStatsStep] at this ⊢
    rw [this, hsumq]
  · have := hR.2.2
    simp only [sellerStatsStep] at this ⊢
    rw [this, hsumr]

/-- The loop body over a list of sales keeps the arithmetic exact while the
totals stay within `2^53`, and its keys are seller ids it has seen. -/
theorem exact_foldl (sales : List ContractSale)
    (hkeys : ∀ sale ∈ sales, sale.sellerId ∉ objectPrototypeKeys)
    (hprice : ∀ sale ∈ sales, sale.price ≤ 2 ^ 53) :
    ∀ (acc : SummaryAcc) (cocoa revenue : Nat), acc.Exact cocoa revenue →
      cocoa + (sales.map fun sale => sale.quantityKg).sum ≤ 2 ^ 53 →
      revenue + (sales.map fun sale => sale.price * sale.quantityKg).sum ≤ 2 ^ 53 →
      (sales.foldl sellerStatsStep acc).Exact
          (cocoa + (sales.map fun sale => sale.quantityKg).sum)
          (revenue + (sales.map fun sale => sale.price * sale.quantityKg).sum)
      ∧ ∀ k ∈ (sales.foldl sellerStatsStep acc).sellerStats.map Prod.fst,
          k ∈ acc.sellerStats.map Prod.fst ∨ k ∈ sales.map ContractSale.sellerId := by
  induction sales with
  | nil =>
    intro acc cocoa revenue hacc _ _
    exact ⟨by simpa using hacc, fun k hk => Or.inl hk⟩
  | cons sale rest ih =>
    intro acc cocoa revenue hacc hcocoa hrevenue
    simp only [List.map_cons, List.sum_cons] at hcocoa hrevenue
    obtain ⟨hstep, hstepKeys⟩ := exact_step acc cocoa revenue sale hacc
      (hkeys sale (List.mem_cons_self _ _)) (hprice sale (List.mem_cons_self _ _))
      (by omega) (by omega)
    obtain ⟨hrest, hrestKeys⟩ := ih (fun s hs => hkeys s (List.mem_cons_of_mem _ hs))
      (fun s hs => hprice s (List.mem_cons_of_mem _ hs)) _ _ _ hstep
      (by omega) (by omega)
    simp only [List.foldl_cons, List.map_cons, List.sum_cons]
    refine ⟨?_, fun k hk => ?_⟩
    · rw [← Nat.add_assoc, ← Nat.add_assoc]; exact hrest
    · rcases hrestKeys k hk with h | h
      · rcases hstepKeys k h with h | h
        · exact Or.inr (by simp [h])
        · exact Or.inl h
      · exact Or.inr (List.mem_cons_of_mem _ h)

/-- With enough fuel, and a counter that can reach the count, the loop visits
the returned sales in order. -/
theorem sellerStatsLoop_returned (getSale : Nat → Completion ContractSale)
    (sales : List ContractSale) (hmax : sales.length ≤ maxNonce)
    (hsales : ∀ i (h : i < sales.length), getSale i = Completion.returned sales[i]) :
    ∀ (fuel i : Nat) (acc : SummaryAcc), i ≤ sales.length →
      sales.length - i < fuel →
      sellerStatsLoop getSale sales.length fuel i acc
        = some (Completion.returned ((sales.drop i).foldl sellerStatsStep acc)) := by
  intro fuel
  induction fuel with
  | zero => intro i acc _ h; omega
  | succ fuel ih =>
    intro i acc hle hfuel
    unfold sellerStatsLoop
    rcases Nat.eq_or_lt_of_le hle with heq | hlt
    · rw [if_neg (by omega), heq, List.drop_length]
      rfl
    · rw [if_pos hlt, hsales i hlt]
      have hinc : increment i = i + 1 := by
        unfold increment; rw [if_pos (by omega)]
      simp only [hinc]
      rw [ih (i + 1) _ (by omega) (by omega), List.drop_eq_getElem_cons hlt]
      rfl

/-- With at most five entries, `topSellers` holds every entry of
`sellerStats`: integer entries stay so, and sums over it are sums over
`sellerStats`. -/
theorem topSellers_sums (sellerStats : JsObject SellerStats)
    (hfive : sellerStats.length ≤ 5)
    (hfinite : ∀ entry ∈ sellerStats, entry.2.Finite) :
    ((topSellers sellerStats).map fun seller => seller.quantity.toNat).sum
        = (sellerStats.map fun entry => entry.2.quantity.toNat).sum
    ∧ ((topSellers sellerStats).map fun seller => seller.revenue.toNat).sum
        = (sellerStats.map fun entry => entry.2.revenue.toNat).sum
    ∧ ∀ seller ∈ topSellers sellerStats,
        seller.quantity = Double.fin seller.quantity.toNat
          ∧ seller.revenue = Double.fin seller.revenue.toNat := by
  have hperm : ((objectEntries sellerStats).insertionSort
      fun a b => !b.2.revenue.subPositive a.2.revenue).Perm sellerStats :=
    (List.perm_insertionSort _ _).trans (JsObject.objectEntries_perm sellerStats)
  have htake : (((objectEntries sellerStats).insertionSort
      fun a b => !b.2.revenue.subPositive a.2.revenue).take 5)
      = (objectEntries sellerStats).insertionSort
          fun a b => !b.2.revenue.subPositive a.2.revenue :=
    List.take_of_length_le (by rw [hperm.length_eq]; exact hfive)
  unfold topSellers
  rw [htake]
  simp only [List.map_map]
  refine ⟨(hperm.map _).sum_eq, (hperm.map _).sum_eq, ?_⟩
  intro seller hseller
  rw [List.mem_map] at hseller
  obtain ⟨entry, hentry, rfl⟩ := hseller
  exact hfinite entry (hperm.subset hentry)

/-- C6, amended. When the calls to the contract return at most `2^53` sales,
with at most five distinct seller ids, none of them the name of a property
of `Object.prototype`, and with prices, total quantity and total revenue of
at most `2^53` each, so that the arithmetic of the handler is exact, the
response of `GET /sales-summary` has `summary.totalCocoaSold` equal to the sum
of `quantity` over `topSellers` and `summary.totalRevenue` equal to the sum of
`revenue` over `topSellers`; both are then the sums over the sales
themselves. -/
theorem getSalesSummary_totals_of_five_sellers (contract : ReadContract)
    (salesCount sellersCount fuel : Nat) (sales : List ContractSale)
    (hcount : contract.getSalesCount = Completion.returned salesCount)
    (hsellers : contract.getSellersCount = Completion.returned sellersCount)
    (hsales : (List.range salesCount).map contract.getSale
        = sales.map Completion.returned)
    (hmax : salesCount ≤ 2 ^ 53) (hfuel : salesCount < fuel)
    (hfive : (sales.map ContractSale.sellerId).dedup.length ≤ 5)
    (hkeys : ∀ sale ∈ sales, sale.sellerId ∉ objectPrototypeKeys)
    (hprice : ∀ sale ∈ sales, sale.price ≤ 2 ^ 53)
    (hcocoa : (sales.map fun sale => sale.quantityKg).sum ≤ 2 ^ 53)
    (hrevenue : (sales.map fun sale => sale.price * sale.quantityKg).sum ≤ 2 ^ 53) :
    ∃ body, getSalesSummary fuel (some contract) = some (SalesSummaryResponse.ok body)
      ∧ body.totalCocoaSold
          = Double.fin (body.topSellers.map fun seller => seller.quantity.toNat).sum
      ∧ body.totalRevenue
          = Double.fin (body.topSellers.map fun seller => seller.revenue.toNat).sum
      ∧ (∀ seller ∈ body.topSellers,
          seller.quantity = Double.fin seller.quantity.toNat
            ∧ seller.revenue = Double.fin seller.revenue.toNat)
      ∧ body.totalCocoaSold = Double.fin (sales.map fun sale => sale.quantityKg).sum
      ∧ body.totalRevenue
          = Double.fin (sales.map fun sale => sale.price * sale.quantityKg).sum := by
  have hlen : salesCount = sales.length := by
    have := congrArg List.length hsales
    simpa using this
  subst hlen
  have hget : ∀ i (h : i < sales.length),
      contract.getSale i = Completion.returned sales[i] := by
    intro i h
    have := congrArg (fun l => l[i]?) hsales
    simpa [List.getElem?_map, List.getElem?_range h, List.getElem?_eq_getElem h]
      using this
  have hloop := sellerStatsLoop_returned contract.getSale sales hmax hget fuel 0
    { totalCocoa := Double.fin 0, totalRevenue := Double.fin 0, sellerStats := [] }
    (Nat.zero_le _) (by omega)
  rw [List.drop_zero] at hloop
  have hstart : SummaryAcc.Exact
      { totalCocoa := Double.fin 0, totalRevenue := Double.fin 0, sellerStats := [] }
      0 0 :=
    ⟨by simp, by simp, rfl, rfl, by simp, by simp⟩
  obtain ⟨⟨hnodup, hfinite, htc, htr, hsumq, hsumr⟩, hsub⟩ :=
    exact_foldl sales hkeys hprice _ 0 0 hstart (by omega) (by omega)
  rw [Nat.zero_add] at htc htr hsumq hsumr
  have hlength : (sales.foldl sellerStatsStep
      { totalCocoa := Double.fin 0, totalRevenue := Double.fin 0
        sellerStats := [] }).sellerStats.length ≤ 5 := by
    have hsubset : (sales.foldl sellerStatsStep
        { totalCocoa := Double.fin 0, totalRevenue := Double.fin 0
          sellerStats := [] }).sellerStats.map Prod.fst
        ⊆ (sales.map ContractSale.sellerId).dedup := by
      intro k hk
      rcases hsub k hk with h | h
      · simp at h
      · exact List.mem_dedup.mpr h
    have := (List.subperm_of_subset hnodup hsubset).length_le
    rw [List.length_map] at this
    omega
  obtain ⟨htq, htrev, htfin⟩ := topSellers_sums _ hlength hfinite
  have hresponse : getSalesSummary fuel (some contract)
      = some (SalesSummaryResponse.ok
          { totalSales := roundToDouble sales.length
            totalSellers := roundToDouble sellersCount
            totalCocoaSold := (sales.foldl sellerStatsStep
              { totalCocoa := Double.fin 0, totalRevenue := Double.fin 0
                sellerStats := [] }).totalCocoa
            totalRevenue := (sales.foldl sellerStatsStep
              { totalCocoa := Double.fin 0, totalRevenue := Double.fin 0
                sellerStats := [] }).totalRevenue
            topSellers := topSellers (sales.foldl sellerStatsStep
              { totalCocoa := Double.fin 0, totalRevenue := Double.fin 0
                sellerStats := [] }).sellerStats }) := by
    simp only [getSalesSummary, hcount, hsellers, hloop]
  refine ⟨_, hresponse, ?_, ?_, htfin, htc, htr⟩
  · show (sales.foldl sellerStatsStep _).totalCocoa = _
    rw [htc, htq, hsumq]
  · show (sales.foldl sellerStatsStep _).totalRevenue = _
    rw [htr, htrev, hsumr]

/-- C6, amended, at a contract that holds the first five sample sales. -/
theorem getSalesSummary_totals_of_five_sellers_witness :
    ∃ body, getSalesSummary 10 (some (contractHolding (sixSales.take 5)))
        = some (SalesSummaryResponse.ok body)
      ∧ body.totalCocoaSold
          = Double.fin (body.topSellers.map fun seller => seller.quantity.toNat).sum
      ∧ body.totalRevenue
          = Double.fin (body.topSellers.map fun seller => seller.revenue.toNat).sum
      ∧ (∀ seller ∈ body.topSellers,
          seller.quantity = Double.fin seller.quantity.toNat
            ∧ seller.revenue = Double.fin seller.revenue.toNat)
      ∧ body.totalCocoaSold = Double.fin 15
      ∧ body.totalRevenue = Double.fin 150 :=
  getSalesSummary_totals_of_five_sellers (contractHolding (sixSales.take 5)) 5 5 10
    (sixSales.take 5) rfl rfl (by decide) (by decide) (by decide) (by decide)
    (by decide) (by decide) (by decide) (by decide)

/-- C6 as stated fails in two ways. For six sales of 1 to 6 kg at price 10 by
six sellers, `totalCocoaSold` is 21 and `totalRevenue` is 210, while
`topSellers` holds the five sellers with the largest revenue, whose
quantities add up to 20 and whose revenues add up to 200. For four sales of
1, 1, `2^53` and 1 kg at price 1 by four sellers, the handler adds doubles:
`totalCocoaSold` is 9007199254740996, while the quantities in `topSellers`
add up to 9007199254740995. -/
theorem getSalesSummary_totals_differ_from_top_sellers :
    getSalesSummary 10 (some (contractHolding sixSales))
        = some (SalesSummaryResponse.ok sixSellersBody)
    ∧ sixSellersBody.totalCocoaSold = Double.fin 21
    ∧ (sixSellersBody.topSellers.map fun seller => seller.quantity.toNat).sum = 20
    ∧ sixSellersBody.totalRevenue = Double.fin 210
    ∧ (sixSellersBody.topSellers.map fun seller => seller.revenue.toNat).sum = 200
    ∧ getSalesSummary 10 (some (contractHolding largeSales))
        = some (SalesSummaryResponse.ok largeSalesBody)
    ∧ largeSalesBody.totalCocoaSold = Double.fin 9007199254740996
    ∧ (largeSalesBody.topSellers.map fun seller => seller.quantity.toNat).sum
        = 9007199254740995 := by
  decide

end CocoaChain
